import Mathlib

/-!
Verification of the core of `resampler.cpp` (separable image rescaler v2.21).

The C++ code is shallowly embedded: `Resample_Real` (a floating-point type in
the source) is modelled by `ℚ`, so all arithmetic is exact; heap allocation is
modelled as always succeeding except where a claim is about an allocation
failure, in which case the outcome is an explicit boolean oracle; C arrays
become Lean lists, with `List.getD`/`List.set` (whose out-of-range behaviour is
a total model of the source's asserted-in-range accesses).
-/

set_option maxRecDepth 10000

/- The Batteries `Rat` operations are `@[irreducible]`, which blocks elaborator-level
evaluation (`decide`, `rfl`) of the exact rational arithmetic this embedding uses; the
kernel ignores reducibility attributes, so restoring the default is safe. -/
set_option allowUnsafeReducibility true
attribute [local semireducible] Rat.add Rat.mul Rat.inv Rat.sub Rat.div Rat.neg

namespace Resampler

/-- Status codes of the engine (`Resampler::Status` in resampler.h). -/
inductive Status where
  | okay
  | outOfMemory
  | badFilterName
  | scanBufferFull
deriving DecidableEq, Repr

/-- Boundary operations (`Resampler::Boundary_Op`). -/
inductive Boundary_Op where
  | wrap
  | reflect
  | clamp
deriving DecidableEq, Repr

/-- One contributor, resampler.h `Contrib` (`Resample_Real weight; unsigned short pixel`).
`pixel` is the value of the C `unsigned short` field, hence a natural number below 65536. -/
structure Contrib where
  pixel : ℕ
  weight : ℚ
deriving DecidableEq, Repr

/-- resampler.h `Contrib_List` (`int n; Contrib* p`), modelled as the list of the `n`
contributors at `p`. -/
structure Contrib_List where
  p : List Contrib
deriving DecidableEq, Repr

instance : Inhabited Contrib_List := ⟨⟨[]⟩⟩

/-- resampler.cpp lines 52-65: `(x mod y)` with special handling for negative `x`.
All call sites have `y > 0`, where C `%` on the non-negative numerators used here
agrees with `Int.emod`. -/
def posmod (x y : ℤ) : ℤ :=
  if 0 ≤ x then x % y
  else
    let m := (-x) % y
    if m ≠ 0 then y - m else m

/-- resampler.cpp lines 389-425 (`Resampler::reflect`): resolve an out-of-bounds source
index by reflection, wrapping, or clamping.  The source's final `else` covers every
boundary op other than `BOUNDARY_REFLECT`/`BOUNDARY_WRAP`, i.e. `BOUNDARY_CLAMP`. -/
def reflect (j src_x : ℤ) (boundary_op : Boundary_Op) : ℤ :=
  if j < 0 then
    match boundary_op with
    | .reflect =>
        let n := -j
        if n ≥ src_x then src_x - 1 else n
    | .wrap => posmod j src_x
    | .clamp => 0
  else if j ≥ src_x then
    match boundary_op with
    | .reflect =>
        let n := (src_x - j) + (src_x - 1)
        if n < 0 then 0 else n
    | .wrap => posmod j src_x
    | .clamp => src_x - 1
  else
    j

/-! ## Filter kernels

The polynomial kernels of resampler.cpp are reproduced exactly over `ℚ`.  The
`sin`/`exp`-based kernels (lanczos*, blackman, gaussian, kaiser) are transcendental and
have no exact rational evaluator; the theorems below quantify over an arbitrary
evaluator `f : ℚ → ℚ`, which covers them. -/

/-- resampler.cpp lines 72-79 (`box_filter`): 1 on the asymmetric half-open
interval `[-0.5, 0.5)`, 0 elsewhere. -/
def box_filter (t : ℚ) : ℚ :=
  if -(1/2) ≤ t ∧ t < 1/2 then 1 else 0

/-- resampler.cpp lines 82-91 (`tent_filter`). -/
def tent_filter (t : ℚ) : ℚ :=
  let t := if t < 0 then -t else t
  if t < 1 then 1 - t else 0

/-- resampler.cpp lines 94-109 (`bell_filter`). -/
def bell_filter (t : ℚ) : ℚ :=
  let t := if t < 0 then -t else t
  if t < 1/2 then 3/4 - t * t
  else if t < 3/2 then
    let t := t - 3/2
    1/2 * (t * t)
  else 0

/-- resampler.cpp lines 112-129 (`B_spline_filter`). -/
def B_spline_filter (t : ℚ) : ℚ :=
  let t := if t < 0 then -t else t
  if t < 1 then
    let tt := t * t
    1/2 * tt * t - tt + 2/3
  else if t < 2 then
    let t := 2 - t
    1/6 * (t * t * t)
  else 0

/-- resampler.cpp lines 133-147 (`quadratic`, Dodgson's family). -/
def quadratic (t R : ℚ) : ℚ :=
  let t := if t < 0 then -t else t
  if t < 3/2 then
    let tt := t * t
    if t ≤ 1/2 then (-2 * R) * tt + 1/2 * (R + 1)
    else R * tt + (-2 * R - 1/2) * t + 3/4 * (R + 1)
  else 0

/-- resampler.cpp lines 149-152. -/
def quadratic_interp_filter (t : ℚ) : ℚ := quadratic t 1

/-- resampler.cpp lines 154-157. -/
def quadratic_approx_filter (t : ℚ) : ℚ := quadratic t (1/2)

/-- resampler.cpp lines 159-162. -/
def quadratic_mix_filter (t : ℚ) : ℚ := quadratic t (4/5)

/-- resampler.cpp lines 172-198 (`mitchell`, Mitchell-Netravali family).
Note the source takes `tt = t * t` before replacing `t` by `|t|`; `tt` is unchanged
by that, so the model computes it on the absolute value. -/
def mitchell (t B C : ℚ) : ℚ :=
  let t := if t < 0 then -t else t
  let tt := t * t
  if t < 1 then
    (((12 - 9 * B - 6 * C) * (t * tt)) + ((-18 + 12 * B + 6 * C) * tt) + (6 - 2 * B)) / 6
  else if t < 2 then
    (((-1 * B - 6 * C) * (t * tt)) + ((6 * B + 30 * C) * tt) + ((-12 * B - 48 * C) * t)
      + (8 * B + 24 * C)) / 6
  else 0

/-- resampler.cpp lines 200-204 (`mitchell_filter`, `B = C = 1/3`). -/
def mitchell_filter (t : ℚ) : ℚ := mitchell t (1/3) (1/3)

/-- resampler.cpp lines 206-210 (`catmull_rom_filter`, `B = 0, C = 1/2`). -/
def catmull_rom_filter (t : ℚ) : ℚ := mitchell t 0 (1/2)

/-! ## The contributor-list builder (`Resampler::make_clist`, lines 429-715)

The builder is decomposed into the quantities the two structurally identical
branches (downsampling, lines 466-586, and upsampling, lines 587-706) compute:
per-destination center / footprint bounds, the raw kernel weights, the list of
surviving (non-zero normalized weight) contributors, the index of the maximum
surviving weight, and the final residual fix-up. -/

/-- `xscale = dst_x / (Resample_Real)src_x` (line 464). -/
def xscaleOf (src_x dst_x : ℤ) : ℚ := (dst_x : ℚ) / (src_x : ℚ)

/-- The downsampling test `xscale < 1.0` (line 466). -/
def isDown (src_x dst_x : ℤ) : Bool := decide (xscaleOf src_x dst_x < 1)

/-- Destination sample center in source coordinates (lines 482-484 and 601-603,
with `NUDGE = 0.5`). -/
def clistCenter (src_x dst_x : ℤ) (src_ofs : ℚ) (i : ℕ) : ℚ :=
  ((i : ℚ) + 1/2) / xscaleOf src_x dst_x - 1/2 + src_ofs

/-- Stretched filter half width (line 475 downsampling, line 594 upsampling). -/
def halfWidth (src_x dst_x : ℤ) (filter_support filter_scale : ℚ) : ℚ :=
  if isDown src_x dst_x then (filter_support / xscaleOf src_x dst_x) * filter_scale
  else filter_support * filter_scale

/-- Left footprint bound `floor(center - half_width)` (lines 486 / 605); `cast_to_int`
of `std::floor` is exact on the integral result. -/
def clistLeft (src_x dst_x : ℤ) (support fscale ofs : ℚ) (i : ℕ) : ℤ :=
  ⌊clistCenter src_x dst_x ofs i - halfWidth src_x dst_x support fscale⌋

/-- Right footprint bound `ceil(center + half_width)` (lines 487 / 606). -/
def clistRight (src_x dst_x : ℤ) (support fscale ofs : ℚ) (i : ℕ) : ℤ :=
  ⌈clistCenter src_x dst_x ofs i + halfWidth src_x dst_x support fscale⌉

/-- The argument the kernel is evaluated at for source sample `j` of destination `i`:
`(center - j) * xscale * oo_filter_scale` when downsampling (lines 529/540), and
`(center - j) * oo_filter_scale` when upsampling (lines 647/659), with
`oo_filter_scale = 1 / filter_scale` (line 461). -/
def clistArg (src_x dst_x : ℤ) (fscale ofs : ℚ) (i : ℕ) (j : ℤ) : ℚ :=
  if isDown src_x dst_x then
    (clistCenter src_x dst_x ofs i - (j : ℚ)) * xscaleOf src_x dst_x * (1 / fscale)
  else
    (clistCenter src_x dst_x ofs i - (j : ℚ)) * (1 / fscale)

/-- Raw (unnormalized) kernel weight of source `j` for destination `i`. -/
def rawWeight (f : ℚ → ℚ) (src_x dst_x : ℤ) (fscale ofs : ℚ) (i : ℕ) (j : ℤ) : ℚ :=
  f (clistArg src_x dst_x fscale ofs i j)

/-- First pass over the footprint: `total_weight` before normalization
(lines 526-529 / 645-647). -/
def rawTotal (f : ℚ → ℚ) (src_x dst_x : ℤ) (supp fscale ofs : ℚ) (i : ℕ) : ℚ :=
  ((List.range (clistRight src_x dst_x supp fscale ofs i + 1
      - clistLeft src_x dst_x supp fscale ofs i).toNat).map
    (fun k => rawWeight f src_x dst_x fscale ofs i
      (clistLeft src_x dst_x supp fscale ofs i + (k : ℤ)))).sum

/-- The surviving contributors `(j, weight)` of destination `i`: each `j` in
`[left, right]` whose normalized weight `filter(arg) * (1 / total_weight)` is not
exactly zero, in order (the emit loop with its `weight == 0` skip, lines 538-567 /
657-686; `norm = 1 / total_weight`, lines 530 / 649). -/
def survivorsAt (f : ℚ → ℚ) (src_x dst_x : ℤ) (supp fscale ofs : ℚ) (i : ℕ) :
    List (ℤ × ℚ) :=
  (List.range (clistRight src_x dst_x supp fscale ofs i + 1
      - clistLeft src_x dst_x supp fscale ofs i).toNat).filterMap
    (fun k =>
      if rawWeight f src_x dst_x fscale ofs i
            (clistLeft src_x dst_x supp fscale ofs i + (k : ℤ))
          * (1 / rawTotal f src_x dst_x supp fscale ofs i) = 0 then none
      else some (clistLeft src_x dst_x supp fscale ofs i + (k : ℤ),
        rawWeight f src_x dst_x fscale ofs i
            (clistLeft src_x dst_x supp fscale ofs i + (k : ℤ))
          * (1 / rawTotal f src_x dst_x supp fscale ofs i)))

/-- The max-weight tracking loop (`if (weight > max_w) { max_w = weight; max_k = k; }`,
lines 562-566, starting from `max_k = -1`, `max_w = -1e+20`, lines 514-515; the float
constant `-1e+20` is modelled by `-(10^20)`). -/
def maxLoop : List (ℤ × ℚ) → ℤ → ℚ → ℤ → ℤ
  | [], _, _, max_k => max_k
  | e :: rest, k, max_w, max_k =>
    if e.2 > max_w then maxLoop rest (k + 1) e.2 k
    else maxLoop rest (k + 1) max_w max_k

def findMaxK (es : List (ℤ × ℚ)) : ℤ :=
  maxLoop es 0 (-(10 ^ 20 : ℚ)) (-1)

/-- The stored contributor for a surviving `(j, weight)`: the boundary-resolved index
cast to `unsigned short` (`Pcontrib[i].p[k].pixel = (unsigned short)(n)`, lines 544,
557-558 / 663, 676-677).  The C cast reduces the `int` modulo 2^16. -/
def contribOf (src_x : ℤ) (boundary_op : Boundary_Op) (jw : ℤ × ℚ) : Contrib :=
  { pixel := ((reflect jw.1 src_x boundary_op) % 65536).toNat, weight := jw.2 }

/-- `Pcontrib[i].p[max_k].weight += delta` (lines 584 / 704). -/
def addResidual : List Contrib → ℕ → ℚ → List Contrib
  | [], _, _ => []
  | c :: rest, 0, d => { c with weight := c.weight + d } :: rest
  | c :: rest, k + 1, d => c :: addResidual rest k d

/-- The final entries for one destination: the stored contributors of the surviving
`(j, weight)` pairs, with the residual `1 - total_weight` added to the maximum
surviving entry when the total differs from 1 (`if (total_weight != RR(1.0))
Pcontrib[i].p[max_k].weight += RR(1.0) - total_weight`, lines 583-584 / 703-704). -/
def clistEntries (src_x : ℤ) (op : Boundary_Op) (es : List (ℤ × ℚ)) : List Contrib :=
  if (es.map (fun jw => jw.2)).sum ≠ 1 then
    addResidual (es.map (contribOf src_x op)) (findMaxK es).toNat
      (1 - (es.map (fun jw => jw.2)).sum)
  else es.map (contribOf src_x op)

/-- The contributor list of destination `i` (loop bodies, lines 512-585 / 631-705).
`none` models the free-everything-and-return-`NULL` path taken when no contributor
survived or no maximum was found (lines 575-581 / 695-701). -/
def contribListFor (f : ℚ → ℚ) (src_x dst_x : ℤ) (op : Boundary_Op)
    (supp fscale ofs : ℚ) (i : ℕ) : Option Contrib_List :=
  if findMaxK (survivorsAt f src_x dst_x supp fscale ofs i) = -1
      ∨ (survivorsAt f src_x dst_x supp fscale ofs i).length = 0 then none
  else some ⟨clistEntries src_x op (survivorsAt f src_x dst_x supp fscale ofs i)⟩

/-- Total footprint size `n` accumulated by the first pass (lines 479-494 / 598-613). -/
def footprintTotal (src_x dst_x : ℤ) (supp fscale ofs : ℚ) : ℤ :=
  ((List.range dst_x.toNat).map (fun i =>
    clistRight src_x dst_x supp fscale ofs i + 1
      - clistLeft src_x dst_x supp fscale ofs i)).sum

/-- Sequence the per-destination lists, failing as soon as one fails (the early
`return NULL` of the source loop). -/
def buildLists (g : ℕ → Option Contrib_List) : List ℕ → Option (List Contrib_List)
  | [] => some []
  | i :: rest =>
    match g i, buildLists g rest with
    | some cl, some cls => some (cl :: cls)
    | _, _ => none

/-- resampler.cpp lines 429-715 (`Resampler::make_clist`).  `calloc` failures are
modelled as always succeeding; the deterministic `NULL` returns (empty total
footprint, line 498/618, and empty or maximum-less per-destination lists) are kept. -/
def make_clist (f : ℚ → ℚ) (src_x dst_x : ℤ) (boundary_op : Boundary_Op)
    (filter_support filter_scale src_ofs : ℚ) : Option (List Contrib_List) :=
  if footprintTotal src_x dst_x filter_support filter_scale src_ofs = 0 then none
  else buildLists
    (contribListFor f src_x dst_x boundary_op filter_support filter_scale src_ofs)
    (List.range dst_x.toNat)

/-! ## The streaming engine

State and operations of the `Resampler` class.  C arrays become lists:
`m_Psrc_y_count` (per-source-row reference counts), `m_Psrc_y_flag` (row-present
flags), and the scan buffer's `scan_buf_y` (slot tags, `-1` = free) and `scan_buf_l`
(slot storage, `none` = not yet allocated). -/

/-- Modelled from the spec: `MAX_SCAN_BUF_SIZE` is defined in resampler.h (absent from
src/); the spec gives the reference value 1024 (§3, ScanBuf). -/
def MAX_SCAN_BUF_SIZE : ℕ := 1024

/-- Modelled from the spec: output clamping of one sample into `[lo, hi]`
(`clamp_sample` is defined in resampler.h, absent from src/; "clamp every destination
sample into [lo, hi]", §4.5). -/
def clamp_sample (lo hi s : ℚ) : ℚ :=
  if s < lo then lo else if s > hi then hi else s

/-- Modelled from the spec: `count_ops` (resampler.h, absent from src/) sums the
contributor counts `Σ |clist[i]|` over the `k` lists of one axis (§4.4). -/
def count_ops (cls : List Contrib_List) (k : ℕ) : ℕ :=
  ((List.range k).map (fun i => (cls.getD i default).p.length)).sum

/-- Modelled from the spec: the build-time default filter name
(`RESAMPLER_DEFAULT_FILTER`, resampler.h, absent from src/; "null → default", §6). -/
def RESAMPLER_DEFAULT_FILTER : String := "lanczos4"

/-- The polynomial subset of the filter table `g_filters` (lines 359-382), with exact
rational evaluators and support radii.  The `sin`/`exp`-based entries (lanczos*,
blackman, gaussian, kaiser) have no rational evaluator; the engine-level theorems take
the filter table as a parameter, which covers any table. -/
def ratFilters : List (String × (ℚ → ℚ) × ℚ) :=
  [("box", box_filter, 1/2), ("tent", tent_filter, 1), ("bell", bell_filter, 3/2),
   ("b-spline", B_spline_filter, 2), ("mitchell", mitchell_filter, 2),
   ("catmullrom", catmull_rom_filter, 2),
   ("quadratic_interp", quadratic_interp_filter, 3/2),
   ("quadratic_approx", quadratic_approx_filter, 3/2),
   ("quadratic_mix", quadratic_mix_filter, 3/2)]

/-- The engine state: the member variables of class `Resampler`. -/
structure Engine where
  resample_src_x : ℕ
  resample_src_y : ℕ
  resample_dst_x : ℕ
  resample_dst_y : ℕ
  boundary_op : Boundary_Op
  lo : ℚ
  hi : ℚ
  status : Status
  Pclist_x : List Contrib_List
  Pclist_y : List Contrib_List
  clist_x_forced : Bool
  clist_y_forced : Bool
  delay_x_resample : Bool
  intermediate_x : ℕ
  Pdst_buf : List ℚ
  Ptmp_buf : List ℚ
  Psrc_y_count : List ℤ
  Psrc_y_flag : List Bool
  scan_buf_y : List ℤ
  scan_buf_l : List (Option (List ℚ))
  cur_src_y : ℕ
  cur_dst_y : ℕ
deriving DecidableEq, Repr

/-- First index satisfying `p`: the linear slot scans of `put_line` (lines 853-855)
and `resample_y` (lines 790-792). -/
def findFirstIdx (p : α → Bool) : List α → Option ℕ
  | [] => none
  | a :: rest => if p a then some 0 else (findFirstIdx p rest).map (· + 1)

/-- resampler.cpp lines 717-738 (`Resampler::resample_x`): horizontal convolution,
`dst[i] = Σ src[p.pixel] * p.weight` over `clist[i]`. -/
def resample_x (clist : List Contrib_List) (dst_x : ℕ) (Psrc : List ℚ) : List ℚ :=
  (List.range dst_x).map (fun i =>
    (clist.getD i default).p.foldl (fun total c => total + Psrc.getD c.pixel 0 * c.weight) 0)

/-- resampler.cpp lines 740-751 (`Resampler::scale_y_mov`): `tmp[i] = src[i] * weight`. -/
def scale_y_mov (Psrc : List ℚ) (weight : ℚ) (dst_x : ℕ) : List ℚ :=
  (List.range dst_x).map (fun i => Psrc.getD i 0 * weight)

/-- resampler.cpp lines 753-761 (`Resampler::scale_y_add`): `tmp[i] += src[i] * weight`. -/
def scale_y_add (Ptmp Psrc : List ℚ) (weight : ℚ) (dst_x : ℕ) : List ℚ :=
  (List.range dst_x).map (fun i => Ptmp.getD i 0 + Psrc.getD i 0 * weight)

/-- The state threaded through the contributor loop of `resample_y`. -/
structure YState where
  Ptmp : List ℚ
  counts : List ℤ
  flags : List Bool
  tags : List ℤ
deriving DecidableEq, Repr

/-- The scan-buffer slot index holding contributor `c`: the first slot whose tag
equals `c.pixel` (lines 790-794).  A failed lookup (impossible in well-formed states;
the source asserts `j < MAX_SCAN_BUF_SIZE`) is modelled by the out-of-range index
`tags.length`, making the subsequent slot read default and the free a no-op. -/
def slotOf (tags : List ℤ) (c : Contrib) : ℕ :=
  (findFirstIdx (fun t => t = (c.pixel : ℤ)) tags).getD tags.length

/-- The work-buffer update of one contributor-loop iteration (lines 796-801):
`scale_y_mov` for the first contributor, `scale_y_add` afterwards, reading the slot
holding the contributor's source row. -/
def resample_y_accum (scan_l : List (Option (List ℚ))) (inter : ℕ) (c : Contrib)
    (first : Bool) (st : YState) : List ℚ :=
  if first then
    scale_y_mov ((scan_l.getD (slotOf st.tags c) none).getD []) c.weight inter
  else
    scale_y_add st.Ptmp ((scan_l.getD (slotOf st.tags c) none).getD []) c.weight inter

/-- One contributor-loop iteration (lines 784-815): accumulate, decrement the
contributor's reference count, and on reaching zero clear the present flag and free
the slot. -/
def resample_y_step (scan_l : List (Option (List ℚ))) (inter : ℕ) (c : Contrib)
    (first : Bool) (st : YState) : YState :=
  if st.counts.getD c.pixel 0 - 1 = 0 then
    { Ptmp := resample_y_accum scan_l inter c first st,
      counts := st.counts.set c.pixel (st.counts.getD c.pixel 0 - 1),
      flags := st.flags.set c.pixel false,
      tags := st.tags.set (slotOf st.tags c) (-1) }
  else
    { Ptmp := resample_y_accum scan_l inter c first st,
      counts := st.counts.set c.pixel (st.counts.getD c.pixel 0 - 1),
      flags := st.flags,
      tags := st.tags }

/-- The contributor loop of `resample_y` (lines 784-815). -/
def resample_y_loop (scan_l : List (Option (List ℚ))) (inter : ℕ) :
    List Contrib → Bool → YState → YState
  | [], _, st => st
  | c :: rest, first, st =>
    resample_y_loop scan_l inter rest false (resample_y_step scan_l inter c first st)

/-- The work buffer / counts / flags / tags after the contributor loop of
`resample_y` at destination `cur_dst_y`; the initial work buffer is `m_Ptmp_buf` when
X resampling is delayed and the destination buffer itself otherwise (line 779). -/
def resample_y_state (e : Engine) : YState :=
  resample_y_loop e.scan_buf_l e.intermediate_x
    (e.Pclist_y.getD e.cur_dst_y default).p true
    ⟨if e.delay_x_resample then e.Ptmp_buf else e.Pdst_buf,
     e.Psrc_y_count, e.Psrc_y_flag, e.scan_buf_y⟩

/-- The destination row before clamping: the delayed X pass when
`m_delay_x_resample` (lines 819-827). -/
def resample_y_row (e : Engine) : List ℚ :=
  if e.delay_x_resample then
    resample_x e.Pclist_x e.resample_dst_x (resample_y_state e).Ptmp
  else (resample_y_state e).Ptmp

/-- resampler.cpp lines 773-831 (`Resampler::resample_y`): run the contributor loop
for destination row `cur_dst_y`, then the delayed X pass when applicable, then
clamping when `m_lo < m_hi` (lines 829-830). -/
def resample_y (e : Engine) : Engine :=
  { e with
    Pdst_buf := if e.lo < e.hi then (resample_y_row e).map (clamp_sample e.lo e.hi)
                else resample_y_row e,
    Ptmp_buf := if e.delay_x_resample then (resample_y_state e).Ptmp else e.Ptmp_buf,
    Psrc_y_count := (resample_y_state e).counts,
    Psrc_y_flag := (resample_y_state e).flags,
    scan_buf_y := (resample_y_state e).tags }

/-- The tail of `put_line` once slot `i` has storage (lines 879-897): fill the slot —
a verbatim `memcpy` of `m_intermediate_x` samples when X resampling is delayed,
otherwise `resample_x` into the slot — and advance the input cursor. -/
def put_line_store (e : Engine) (i : ℕ) (Psrc : List ℚ) : Engine × Bool :=
  ({ e with
      scan_buf_l := e.scan_buf_l.set i (some
        (if e.delay_x_resample then Psrc.take e.intermediate_x
         else resample_x e.Pclist_x e.resample_dst_x Psrc)),
      cur_src_y := e.cur_src_y + 1 }, true)

/-- The flag/tag marking at `put_line` lines 865-866: set `m_Psrc_y_flag[cur_src_y]`
and tag slot `i` with `cur_src_y`.  Done before the slot-allocation check. -/
def put_line_mark (e : Engine) (i : ℕ) : Engine :=
  { e with
    Psrc_y_flag := e.Psrc_y_flag.set e.cur_src_y true,
    scan_buf_y := e.scan_buf_y.set i (e.cur_src_y : ℤ) }

/-- resampler.cpp lines 833-898 (`Resampler::put_line`).  The `malloc` for a slot's
first use (line 872) is the only fallible allocation here; its outcome is the explicit
oracle `allocOk`. -/
def put_line (e : Engine) (Psrc : List ℚ) (allocOk : Bool) : Engine × Bool :=
  if e.resample_src_y ≤ e.cur_src_y then (e, false)
  else if e.Psrc_y_count.getD e.cur_src_y 0 = 0 then
    ({ e with cur_src_y := e.cur_src_y + 1 }, true)
  else
    match findFirstIdx (fun t => t = -1) e.scan_buf_y with
    | none => ({ e with status := .scanBufferFull }, false)
    | some i =>
      match (put_line_mark e i).scan_buf_l.getD i none with
      | none =>
        if allocOk then put_line_store (put_line_mark e i) i Psrc
        else ({ put_line_mark e i with status := .outOfMemory }, false)
      | some _ => put_line_store (put_line_mark e i) i Psrc

/-- resampler.cpp lines 900-925 (`Resampler::get_line`): end-of-stream when
`cur_dst_y == dst_y`; `NULL` (not ready) when some contributor of the current row is
not present; otherwise resample and advance. -/
def get_line (e : Engine) : Engine × Option (List ℚ) :=
  if e.cur_dst_y = e.resample_dst_y then (e, none)
  else if (e.Pclist_y.getD e.cur_dst_y default).p.any
      (fun c => ! e.Psrc_y_flag.getD c.pixel false) then (e, none)
  else
    ({ resample_y e with cur_dst_y := (resample_y e).cur_dst_y + 1 },
      some (resample_y e).Pdst_buf)

/-- One `count[p.pixel]++` pass over a contributor list (inner loop of lines
1126-1128 / 994-996). -/
def bumpCounts (counts : List ℤ) (ps : List Contrib) : List ℤ :=
  ps.foldl (fun cs c => cs.set c.pixel (cs.getD c.pixel 0 + 1)) counts

/-- How many times each source row contributes to a destination row (constructor lines
1122-1128, also rebuilt by `restart`, lines 992-996). -/
def computeCounts (cls : List Contrib_List) (dst_y src_y : ℕ) : List ℤ :=
  (List.range dst_y).foldl (fun cs i => bumpCounts cs (cls.getD i default).p)
    (List.replicate src_y 0)

/-- resampler.cpp lines 978-1005 (`Resampler::restart`): refuse when the status is not
OK; otherwise zero the cursors, rebuild the reference counts, clear the flags, free
all slots and their storage. -/
def restart (e : Engine) : Engine :=
  if e.status ≠ .okay then e
  else
    { e with
      cur_src_y := 0, cur_dst_y := 0,
      Psrc_y_count := computeCounts e.Pclist_y e.resample_dst_y e.resample_src_y,
      Psrc_y_flag := List.replicate e.resample_src_y false,
      scan_buf_y := List.replicate MAX_SCAN_BUF_SIZE (-1),
      scan_buf_l := List.replicate MAX_SCAN_BUF_SIZE none }

/-- The member initializations at constructor lines 1031-1052, plus the destination
buffer allocation (line 1054, contents uninitialized, modelled as zeros).
`m_cur_src_y`/`m_cur_dst_y` are not initialized until line 1142; they are modelled
as 0 from the start. -/
def mkEngineBase (src_x src_y dst_x dst_y : ℕ) (op : Boundary_Op) (lo hi : ℚ) :
    Engine :=
  { resample_src_x := src_x, resample_src_y := src_y,
    resample_dst_x := dst_x, resample_dst_y := dst_y,
    boundary_op := op, lo := lo, hi := hi, status := .okay,
    Pclist_x := [], Pclist_y := [], clist_x_forced := false, clist_y_forced := false,
    delay_x_resample := false, intermediate_x := 0,
    Pdst_buf := List.replicate dst_x 0, Ptmp_buf := [],
    Psrc_y_count := [], Psrc_y_flag := [],
    scan_buf_y := [], scan_buf_l := [],
    cur_src_y := 0, cur_dst_y := 0 }

/-- Constructor lines 1110-1192, after both contributor lists exist: reference-count
initialization, scan-buffer initialization, and the axis-order decision
(`xy_ops`/`yx_ops`, lines 1142-1183) followed by the optional intermediate-buffer
allocation (lines 1185-1192, assumed to succeed). -/
def mkEngineFinish (e0 : Engine) (clx cly : List Contrib_List)
    (xforced yforced : Bool) : Engine :=
  let x_ops := count_ops clx e0.resample_dst_x
  let y_ops := count_ops cly e0.resample_dst_y
  let xy_ops := x_ops * e0.resample_src_y + (4 * y_ops * e0.resample_dst_x) / 3
  let yx_ops := (4 * y_ops * e0.resample_src_x) / 3 + x_ops * e0.resample_dst_y
  let delay : Bool := decide (yx_ops < xy_ops
    ∨ (xy_ops = yx_ops ∧ e0.resample_src_x < e0.resample_dst_x))
  { e0 with
    Pclist_x := clx, Pclist_y := cly,
    clist_x_forced := xforced, clist_y_forced := yforced,
    Psrc_y_count := computeCounts cly e0.resample_dst_y e0.resample_src_y,
    Psrc_y_flag := List.replicate e0.resample_src_y false,
    scan_buf_y := List.replicate MAX_SCAN_BUF_SIZE (-1),
    scan_buf_l := List.replicate MAX_SCAN_BUF_SIZE none,
    cur_src_y := 0, cur_dst_y := 0,
    delay_x_resample := delay,
    intermediate_x := if delay then e0.resample_src_x else e0.resample_dst_x,
    Ptmp_buf := if delay then List.replicate e0.resample_src_x 0 else e0.Ptmp_buf }

/-- resampler.cpp lines 1007-1193 (`Resampler::Resampler`).  The filter table is a
parameter (see `ratFilters`); the constructor-time allocations other than the two
`make_clist` calls are assumed to succeed. -/
def mkEngine (src_x src_y dst_x dst_y : ℕ) (op : Boundary_Op) (lo hi : ℚ)
    (Pfilter_name : Option String) (g_filters : List (String × (ℚ → ℚ) × ℚ))
    (Pclist_x_arg Pclist_y_arg : Option (List Contrib_List))
    (filter_x_scale filter_y_scale src_x_ofs src_y_ofs : ℚ) : Engine :=
  let e0 := mkEngineBase src_x src_y dst_x dst_y op lo hi
  match g_filters.find? (fun r => r.1 = Pfilter_name.getD RESAMPLER_DEFAULT_FILTER) with
  | none => { e0 with status := .badFilterName }
  | some fr =>
    match Pclist_x_arg with
    | none =>
      match make_clist fr.2.1 (src_x : ℤ) (dst_x : ℤ) op fr.2.2 filter_x_scale
          src_x_ofs with
      | none => { e0 with status := .outOfMemory }
      | some clx =>
        match Pclist_y_arg with
        | none =>
          match make_clist fr.2.1 (src_y : ℤ) (dst_y : ℤ) op fr.2.2 filter_y_scale
              src_y_ofs with
          | none => { e0 with Pclist_x := clx, status := .outOfMemory }
          | some cly => mkEngineFinish e0 clx cly false false
        | some cly => mkEngineFinish e0 clx cly false true
    | some clx =>
      match Pclist_y_arg with
      | none =>
        match make_clist fr.2.1 (src_y : ℤ) (dst_y : ℤ) op fr.2.2 filter_y_scale
            src_y_ofs with
        | none =>
          { e0 with
            Pclist_x := clx
            clist_x_forced := true
            status := .outOfMemory }
        | some cly => mkEngineFinish e0 clx cly true false
      | some cly => mkEngineFinish e0 clx cly true true

/-- One caller action: feed a source row (with the outcome of the slot `malloc` given
by the oracle), pull a destination row, or restart. -/
inductive Op where
  | put (row : List ℚ) (allocOk : Bool)
  | get
  | restart
deriving DecidableEq, Repr

/-- Apply one caller action to the engine state. -/
def stepOp (e : Engine) (op : Op) : Engine :=
  match op with
  | .put row ok => (put_line e row ok).1
  | .get => (get_line e).1
  | .restart => restart e

/-- Run a sequence of caller actions. -/
def runOps (e : Engine) (ops : List Op) : Engine :=
  ops.foldl stepOp e

/-! ### Specification-side measures and invariants (for the reference-count and
constant-image theorems) -/

/-- Number of contributors with source index `s` in one contributor list. -/
def multL (s : ℕ) (l : List Contrib) : ℕ :=
  (l.filter (fun c => c.pixel = s)).length

/-- Number of contributors with source index `s` in destination list `d` of an axis. -/
def multY (cls : List Contrib_List) (d s : ℕ) : ℕ :=
  multL s (cls.getD d default).p

/-- Each scan-buffer slot is free (`-1`) or tagged with a source row whose reference
count is still positive. -/
def TagsLive (tags counts : List ℤ) (srcy : ℕ) : Prop :=
  ∀ j, j < tags.length →
    tags.getD j 0 = -1
      ∨ (0 ≤ tags.getD j 0 ∧ (tags.getD j 0).toNat < srcy
          ∧ 0 < counts.getD (tags.getD j 0).toNat 0)

/-- No two scan-buffer slots carry the same non-free tag. -/
def TagsDistinct (tags : List ℤ) : Prop :=
  ∀ j k, j < tags.length → k < tags.length → j ≠ k → 0 ≤ tags.getD j 0 →
    tags.getD j 0 ≠ tags.getD k 0

/-- Every source row marked present occupies some scan-buffer slot. -/
def FlagsCovered (flags : List Bool) (tags : List ℤ) (srcy : ℕ) : Prop :=
  ∀ s, s < srcy → flags.getD s false = true →
    ∃ j, j < tags.length ∧ tags.getD j 0 = (s : ℤ)

/-- The inductive invariant of OK-status engine states: the reference count of each
source row equals its total number of uses by the destination rows not yet produced,
slot tags are live, distinct, and below the input cursor, and present rows have
slots. -/
structure EngineInv (e : Engine) : Prop where
  hcountlen : e.Psrc_y_count.length = e.resample_src_y
  hflaglen : e.Psrc_y_flag.length = e.resample_src_y
  hcur : e.cur_dst_y ≤ e.resample_dst_y
  hA : ∀ s, s < e.resample_src_y →
    e.Psrc_y_count.getD s 0
      = ∑ d ∈ Finset.Ico e.cur_dst_y e.resample_dst_y, (multY e.Pclist_y d s : ℤ)
  hI1 : TagsLive e.scan_buf_y e.Psrc_y_count e.resample_src_y
  hI2 : TagsDistinct e.scan_buf_y
  hI3 : ∀ j, j < e.scan_buf_y.length → e.scan_buf_y.getD j 0 < (e.cur_src_y : ℤ)
  hF : FlagsCovered e.Psrc_y_flag e.scan_buf_y e.resample_src_y

/-- Every occupied scan-buffer slot stores the constant row of value `c` and width
`inter`. -/
def ConstSlots (scan_l : List (Option (List ℚ))) (tags : List ℤ) (inter : ℕ)
    (c : ℚ) : Prop :=
  ∀ j, j < tags.length → tags.getD j 0 ≠ -1 →
    scan_l.getD j none = some (List.replicate inter c)

/-- Facts about a successfully constructed engine with generated contributor lists,
used by the constant-image theorem: unit weight sums, in-range pixels, non-empty
per-destination lists, and the intermediate width matching the axis order.  These
fields never change after construction. -/
def EngineStatics (e : Engine) : Prop :=
  (∀ i, i < e.resample_dst_x →
    ((e.Pclist_x.getD i default).p.map (fun x => x.weight)).sum = 1)
  ∧ (∀ i, i < e.resample_dst_x → ∀ x ∈ (e.Pclist_x.getD i default).p,
      x.pixel < e.resample_src_x)
  ∧ (∀ d, d < e.resample_dst_y →
      ((e.Pclist_y.getD d default).p.map (fun x => x.weight)).sum = 1)
  ∧ (∀ d, d < e.resample_dst_y → (e.Pclist_y.getD d default).p ≠ [])
  ∧ e.intermediate_x
      = (if e.delay_x_resample then e.resample_src_x else e.resample_dst_x)

/-- The constant-image run invariant: slot storage parallels the tag array and every
occupied slot holds the constant row. -/
def ConstInv (c : ℚ) (e : Engine) : Prop :=
  e.scan_buf_l.length = e.scan_buf_y.length
  ∧ ConstSlots e.scan_buf_l e.scan_buf_y e.intermediate_x c

/-- The combined invariant for constant-image runs. -/
def GoodC (c : ℚ) (e : Engine) : Prop :=
  EngineInv e ∧ EngineStatics e ∧ ConstInv c e

/-- A concrete 2-by-2 identity engine over the box filter (used by witnesses). -/
def engBox22 : Engine :=
  mkEngine 2 2 2 2 .clamp 0 0 (some "box") ratFilters none none 1 1 0 0

/-- `engBox22` after a `put_line` whose slot allocation failed. -/
def engBox22oom : Engine := (put_line engBox22 [5, 5] false).1

/-- A concrete 1-by-1 identity engine over the box filter (used by witnesses). -/
def engBox11 : Engine :=
  mkEngine 1 1 1 1 .clamp 0 0 (some "box") ratFilters none none 1 1 0 0

/-- A hand-built engine state whose next source row is dead (reference count 0). -/
def engDead : Engine := { engBox22 with Psrc_y_count := [0, 2] }

/-! ## Lemmas about the builder -/

lemma addResidual_weight_sum (l : List Contrib) (k : ℕ) (d : ℚ) (hk : k < l.length) :
    ((addResidual l k d).map (fun c => c.weight)).sum
      = (l.map (fun c => c.weight)).sum + d := by
  induction l generalizing k with
  | nil => simp at hk
  | cons c rest ih =>
    cases k with
    | zero => simp [addResidual]; ring
    | succ k =>
      simp only [addResidual, List.map_cons, List.sum_cons]
      rw [ih k (by simpa using hk)]
      ring

lemma addResidual_pixels (l : List Contrib) (k : ℕ) (d : ℚ) :
    (addResidual l k d).map (fun c => c.pixel) = l.map (fun c => c.pixel) := by
  induction l generalizing k with
  | nil => rfl
  | cons c rest ih =>
    cases k with
    | zero => simp [addResidual]
    | succ k => simp [addResidual, ih k]

lemma maxLoop_cases (es : List (ℤ × ℚ)) (k : ℤ) (w : ℚ) (mk : ℤ) :
    maxLoop es k w mk = mk
      ∨ (k ≤ maxLoop es k w mk ∧ maxLoop es k w mk < k + (es.length : ℤ)) := by
  induction es generalizing k w mk with
  | nil => left; rfl
  | cons e rest ih =>
    simp only [maxLoop]
    split
    · rcases ih (k + 1) e.2 k with h | ⟨h1, h2⟩
      · right
        rw [h]
        simp only [List.length_cons]
        push_cast
        omega
      · right
        simp only [List.length_cons]
        push_cast
        constructor
        · omega
        · push_cast at h2; omega
    · rcases ih (k + 1) w mk with h | ⟨h1, h2⟩
      · left; exact h
      · right
        simp only [List.length_cons]
        push_cast
        constructor
        · omega
        · push_cast at h2; omega

lemma findMaxK_range (es : List (ℤ × ℚ)) (h : findMaxK es ≠ -1) :
    0 ≤ findMaxK es ∧ findMaxK es < (es.length : ℤ) := by
  have := maxLoop_cases es 0 (-(10 ^ 20 : ℚ)) (-1)
  rw [show maxLoop es 0 (-(10 ^ 20 : ℚ)) (-1) = findMaxK es from rfl] at this
  rcases this with h1 | h1
  · exact absurd h1 h
  · omega

lemma buildLists_mem {g : ℕ → Option Contrib_List} :
    ∀ {l : List ℕ} {cls : List Contrib_List}, buildLists g l = some cls →
      ∀ cl ∈ cls, ∃ i ∈ l, g i = some cl := by
  intro l
  induction l with
  | nil =>
    intro cls h cl hcl
    simp only [buildLists, Option.some.injEq] at h
    subst h
    simp at hcl
  | cons i rest ih =>
    intro cls h cl hcl
    simp only [buildLists] at h
    cases hg : g i with
    | none => rw [hg] at h; exact absurd h (by simp)
    | some c0 =>
      cases hr : buildLists g rest with
      | none => rw [hg, hr] at h; exact absurd h (by simp)
      | some cs =>
        rw [hg, hr] at h
        simp only [Option.some.injEq] at h
        subst h
        rcases List.mem_cons.mp hcl with rfl | hmem
        · exact ⟨i, by simp, hg⟩
        · rcases ih hr cl hmem with ⟨i', hi', hgi'⟩
          exact ⟨i', by simp [hi'], hgi'⟩

lemma make_clist_mem {f : ℚ → ℚ} {src_x dst_x : ℤ} {op : Boundary_Op}
    {supp fscale ofs : ℚ} {cls : List Contrib_List} {cl : Contrib_List}
    (h : make_clist f src_x dst_x op supp fscale ofs = some cls) (hcl : cl ∈ cls) :
    ∃ i, contribListFor f src_x dst_x op supp fscale ofs i = some cl := by
  unfold make_clist at h
  split at h
  · exact absurd h (by simp)
  · rcases buildLists_mem h cl hcl with ⟨i, _, hi⟩
    exact ⟨i, hi⟩

lemma clistEntries_weight_sum {src_x : ℤ} {op : Boundary_Op} {es : List (ℤ × ℚ)}
    (h : findMaxK es ≠ -1) :
    ((clistEntries src_x op es).map (fun c => c.weight)).sum = 1 := by
  have hrange := findMaxK_range es h
  have hwmap : (es.map (contribOf src_x op)).map (fun c => c.weight)
      = es.map (fun jw => jw.2) := by
    rw [List.map_map]; rfl
  unfold clistEntries
  split
  · rw [addResidual_weight_sum _ _ _ (by rw [List.length_map]; omega)]
    rw [hwmap]
    ring
  · rename_i heq
    rw [not_not] at heq
    rw [hwmap, heq]

lemma contribListFor_weight_sum {f : ℚ → ℚ} {src_x dst_x : ℤ} {op : Boundary_Op}
    {supp fscale ofs : ℚ} {i : ℕ} {cl : Contrib_List}
    (h : contribListFor f src_x dst_x op supp fscale ofs i = some cl) :
    (cl.p.map (fun c => c.weight)).sum = 1 := by
  unfold contribListFor at h
  split at h
  · exact absurd h (by simp)
  · rename_i hcond
    push_neg at hcond
    obtain ⟨hmk, _⟩ := hcond
    simp only [Option.some.injEq] at h
    subst h
    exact clistEntries_weight_sum hmk

/-- Claim C1: every contributor list produced by `make_clist` has weights summing to
exactly 1: the residual `1 - Σweight` is folded into the maximum surviving entry.
(The theorem holds for an arbitrary kernel evaluator `f`, which subsumes every
registered filter.) -/
theorem make_clist_weight_sum_eq_one
    (f : ℚ → ℚ) (src_x dst_x : ℤ) (op : Boundary_Op) (supp fscale ofs : ℚ)
    (cls : List Contrib_List)
    (hsrc : 1 ≤ src_x) (hdst : 1 ≤ dst_x) (hfs : 1 ≤ fscale)
    (h : make_clist f src_x dst_x op supp fscale ofs = some cls) :
    ∀ cl ∈ cls, (cl.p.map (fun c => c.weight)).sum = 1 := by
  intro cl hcl
  rcases make_clist_mem h hcl with ⟨i, hi⟩
  exact contribListFor_weight_sum hi

/-- Witness for C1 at a concrete downsampling instance (box filter, 4 → 2). -/
theorem make_clist_weight_sum_eq_one_witness :
    ((⟨[⟨0, 1/2⟩, ⟨1, 1/2⟩]⟩ : Contrib_List).p.map (fun c => c.weight)).sum = 1 :=
  make_clist_weight_sum_eq_one box_filter 4 2 .clamp (1/2) 1 0
    [⟨[⟨0, 1/2⟩, ⟨1, 1/2⟩]⟩, ⟨[⟨2, 1/2⟩, ⟨3, 1/2⟩]⟩]
    (by decide) (by decide) (by decide) (by decide)
    ⟨[⟨0, 1/2⟩, ⟨1, 1/2⟩]⟩ (by decide)

/-! ## Claim C2: boundary resolution and the stored pixel -/

lemma posmod_bounds (x y : ℤ) (hy : 0 < y) : 0 ≤ posmod x y ∧ posmod x y < y := by
  unfold posmod
  split
  · exact ⟨Int.emod_nonneg x (by omega), Int.emod_lt_of_pos x hy⟩
  · have h1 : 0 ≤ -x % y := Int.emod_nonneg (-x) (by omega)
    have h2 : -x % y < y := Int.emod_lt_of_pos (-x) hy
    dsimp only
    split <;> omega

/-- `reflect` always produces an index in `[0, src_x)` (for `src_x ≥ 1`), for all three
boundary ops. -/
lemma reflect_bounds (j src_x : ℤ) (op : Boundary_Op) (h : 1 ≤ src_x) :
    0 ≤ reflect j src_x op ∧ reflect j src_x op < src_x := by
  unfold reflect
  split
  · rename_i hj
    cases op with
    | reflect => dsimp only; split <;> omega
    | wrap => exact posmod_bounds j src_x (by omega)
    | clamp => simp; omega
  · rename_i hj
    split
    · rename_i hj2
      cases op with
      | reflect => dsimp only; split <;> omega
      | wrap => exact posmod_bounds j src_x (by omega)
      | clamp => simp; omega
    · rename_i hj2
      omega

lemma emod_65536_le_self {r : ℤ} (hr : 0 ≤ r) : r % 65536 ≤ r := by
  rcases lt_or_le r 65536 with h | h
  · rw [Int.emod_eq_of_lt hr h]
  · have := Int.emod_lt_of_pos r (show (0:ℤ) < 65536 by omega)
    omega

lemma contribOf_pixel_lt {src_x : ℤ} {op : Boundary_Op} (jw : ℤ × ℚ) (h : 1 ≤ src_x) :
    ((contribOf src_x op jw).pixel : ℤ) < src_x := by
  have hb := reflect_bounds jw.1 src_x op h
  have hnn : 0 ≤ reflect jw.1 src_x op % 65536 :=
    Int.emod_nonneg _ (by omega)
  have hle := emod_65536_le_self hb.1
  unfold contribOf
  dsimp only
  omega

lemma clistEntries_pixels {src_x : ℤ} {op : Boundary_Op} {es : List (ℤ × ℚ)} :
    (clistEntries src_x op es).map (fun c => c.pixel)
      = (es.map (contribOf src_x op)).map (fun c => c.pixel) := by
  unfold clistEntries
  split
  · exact addResidual_pixels _ _ _
  · rfl

lemma contribListFor_pixel_lt {f : ℚ → ℚ} {src_x dst_x : ℤ} {op : Boundary_Op}
    {supp fscale ofs : ℚ} {i : ℕ} {cl : Contrib_List}
    (hsrc : 1 ≤ src_x)
    (h : contribListFor f src_x dst_x op supp fscale ofs i = some cl) :
    ∀ c ∈ cl.p, (c.pixel : ℤ) < src_x := by
  intro c hc
  unfold contribListFor at h
  split at h
  · exact absurd h (by simp)
  · simp only [Option.some.injEq] at h
    subst h
    have hpx : c.pixel ∈ (clistEntries src_x op
        (survivorsAt f src_x dst_x supp fscale ofs i)).map (fun c => c.pixel) :=
      List.mem_map_of_mem _ hc
    rw [clistEntries_pixels, List.map_map] at hpx
    rcases List.mem_map.mp hpx with ⟨jw, _, hpix⟩
    rw [← hpix]
    exact contribOf_pixel_lt jw hsrc

/-- Claim C2 exactly as stated: within bounds AND the stored `unsigned short` equals
the boundary-resolved index for arbitrary `src_len ≥ 1`.  This is refuted below: for
`src_len > 65536` the `(unsigned short)` cast truncates. -/
theorem stored_pixel_eq_reflect_counterexample :
    ¬ (∀ (f : ℚ → ℚ) (src_x dst_x : ℤ) (op : Boundary_Op) (supp fscale ofs : ℚ)
        (cls : List Contrib_List),
        1 ≤ src_x → 1 ≤ dst_x →
        make_clist f src_x dst_x op supp fscale ofs = some cls →
        (∀ cl ∈ cls, ∀ c ∈ cl.p, (c.pixel : ℤ) < src_x) ∧
        (∀ j : ℤ, 0 ≤ reflect j src_x op ∧ reflect j src_x op < src_x) ∧
        (∀ i, i < dst_x.toNat →
          ∀ jw ∈ survivorsAt f src_x dst_x supp fscale ofs i,
            contribOf src_x op jw
              = ⟨(reflect jw.1 src_x op).toNat, jw.2⟩)) := by
  intro h
  have h3 := (h box_filter 70000 1 .clamp (1/70000) 1 30537
      [⟨[⟨65535, 1/4⟩, ⟨0, 1/4⟩, ⟨1, 1/4⟩, ⟨2, 1/4⟩]⟩]
      (by decide) (by decide) (by decide)).2.2
  have h4 := h3 0 (by decide) (65536, 1/4) (by decide)
  exact absurd h4 (by decide)

/-- Claim C2, amended: every stored `pixel` lies in `[0, src_x)` and
`reflect` maps every integer into `[0, src_x)`, for all three boundary ops; the
stored `unsigned short` additionally equals the boundary-resolved index whenever
`src_x ≤ 65536` (for larger `src_x` the cast truncates modulo 2^16, though the
stored value still lies in `[0, src_x)`). -/
theorem make_clist_pixel_in_range
    (f : ℚ → ℚ) (src_x dst_x : ℤ) (op : Boundary_Op) (supp fscale ofs : ℚ)
    (cls : List Contrib_List)
    (hsrc : 1 ≤ src_x) (hdst : 1 ≤ dst_x)
    (h : make_clist f src_x dst_x op supp fscale ofs = some cls) :
    (∀ cl ∈ cls, ∀ c ∈ cl.p, (c.pixel : ℤ) < src_x) ∧
    (∀ j : ℤ, 0 ≤ reflect j src_x op ∧ reflect j src_x op < src_x) ∧
    (src_x ≤ 65536 → ∀ i, i < dst_x.toNat →
      ∀ jw ∈ survivorsAt f src_x dst_x supp fscale ofs i,
        contribOf src_x op jw = ⟨(reflect jw.1 src_x op).toNat, jw.2⟩) := by
  refine ⟨?_, fun j => reflect_bounds j src_x op hsrc, ?_⟩
  · intro cl hcl
    rcases make_clist_mem h hcl with ⟨i, hi⟩
    exact contribListFor_pixel_lt hsrc hi
  · intro hle i _ jw _
    have hb := reflect_bounds jw.1 src_x op hsrc
    unfold contribOf
    rw [Int.emod_eq_of_lt hb.1 (by omega)]

/-- Witness for the amended C2 at a concrete instance (box filter, 4 → 2, clamp). -/
theorem make_clist_pixel_in_range_witness :
    0 ≤ reflect (-5) 4 .clamp ∧ reflect (-5) 4 .clamp < 4 :=
  (make_clist_pixel_in_range box_filter 4 2 .clamp (1/2) 1 0
    [⟨[⟨0, 1/2⟩, ⟨1, 1/2⟩]⟩, ⟨[⟨2, 1/2⟩, ⟨3, 1/2⟩]⟩]
    (by decide) (by decide) (by decide)).2.1 (-5)

/-! ## Claim C7: the box filter's asymmetric half-open interval -/

/-- Claim C7 exactly as stated: the box evaluator is 1 on `[-1/2, 1/2)` and 0
elsewhere, and a source `j` at `center - j = 1/2` exactly never survives into the
contributor list.  Refuted: when downsampling (or when `filter_scale > 1`) the kernel
argument is `(center - j) * xscale / filter_scale`, which lands strictly inside the
interval, so `j` receives a non-zero weight. -/
theorem box_halfopen_counterexample :
    ¬ ((∀ t : ℚ, (box_filter t = 1 ↔ (-(1/2) ≤ t ∧ t < 1/2)) ∧
          (box_filter t = 0 ↔ ¬(-(1/2) ≤ t ∧ t < 1/2))) ∧
       (∀ (src_x dst_x : ℤ) (supp fscale ofs : ℚ) (i : ℕ) (j : ℤ),
          1 ≤ src_x → 1 ≤ dst_x →
          clistCenter src_x dst_x ofs i - (j : ℚ) = 1/2 →
          ∀ w : ℚ, (j, w) ∉ survivorsAt box_filter src_x dst_x supp fscale ofs i)) := by
  intro h
  have h2 := h.2 2 1 (1/2) 1 0 0 0 (by decide) (by decide) (by decide) (1/2)
  exact h2 (by decide)

/-- Claim C7, amended: the box evaluator is 1 exactly on `[-1/2, 1/2)` and 0
elsewhere; and the half-open interval is preserved by the builder whenever the kernel
argument is `center - j` itself, i.e. in the upsampling branch (`src_x ≤ dst_x`) with
`filter_scale = 1`: a source `j` with `center - j = 1/2` exactly contributes no
surviving entry. -/
theorem box_halfopen_preserved :
    (∀ t : ℚ, (box_filter t = 1 ↔ (-(1/2) ≤ t ∧ t < 1/2)) ∧
       (box_filter t = 0 ↔ ¬(-(1/2) ≤ t ∧ t < 1/2))) ∧
    (∀ (src_x dst_x : ℤ) (supp ofs : ℚ) (i : ℕ) (j : ℤ),
       1 ≤ src_x → src_x ≤ dst_x →
       clistCenter src_x dst_x ofs i - (j : ℚ) = 1/2 →
       ∀ w : ℚ, (j, w) ∉ survivorsAt box_filter src_x dst_x supp 1 ofs i) := by
  constructor
  · intro t
    by_cases hc : -(1/2) ≤ t ∧ t < 1/2
    · simp [box_filter, hc]
    · simp [box_filter, hc]
  · intro src_x dst_x supp ofs i j hsrc hsd hcent w hw
    have hsq : (0 : ℚ) < (src_x : ℚ) := by
      exact_mod_cast (show (0:ℤ) < src_x by omega)
    have hxs : ¬ (xscaleOf src_x dst_x < 1) := by
      unfold xscaleOf
      rw [not_lt, one_le_div hsq]
      exact_mod_cast hsd
    have hdown : isDown src_x dst_x = false := by
      unfold isDown
      exact decide_eq_false hxs
    unfold survivorsAt at hw
    rcases List.mem_filterMap.mp hw with ⟨k, _, hsome⟩
    split at hsome
    · exact absurd hsome (by simp)
    · rename_i hne
      rw [Option.some.injEq, Prod.mk.injEq] at hsome
      obtain ⟨hj, _⟩ := hsome
      apply hne
      rw [hj]
      unfold rawWeight clistArg
      rw [hdown]
      simp only [Bool.false_eq_true, if_false]
      rw [hcent]
      norm_num [box_filter]

/-- Witness for the amended C7: identity scale with `src_ofs = 1/2` puts `center - 0`
at exactly `1/2`, and `j = 0` indeed survives with no weight. -/
theorem box_halfopen_preserved_witness :
    box_filter (1/4) = 1 ∧ ((0, (1/3 : ℚ)) ∉ survivorsAt box_filter 2 2 (1/2) 1 (1/2) 0) :=
  ⟨(box_halfopen_preserved.1 (1/4)).1.mpr (by norm_num),
   box_halfopen_preserved.2 2 2 (1/2) (1/2) 0 0 (by decide) (by decide) (by decide) (1/3)⟩

/-! ## List and scan helpers -/

lemma getD_set_self {α : Type} (l : List α) (i : ℕ) (x d : α) (h : i < l.length) :
    (l.set i x).getD i d = x := by
  induction l generalizing i with
  | nil => simp at h
  | cons a rest ih =>
    cases i with
    | zero => rfl
    | succ i => exact ih i (by simpa using h)

lemma getD_set_ne {α : Type} (l : List α) (i j : ℕ) (x d : α) (h : i ≠ j) :
    (l.set i x).getD j d = l.getD j d := by
  induction l generalizing i j with
  | nil => rfl
  | cons a rest ih =>
    cases i with
    | zero =>
      cases j with
      | zero => exact absurd rfl h
      | succ j => rfl
    | succ i =>
      cases j with
      | zero => rfl
      | succ j => exact ih i j (by omega)

lemma getD_oob {α : Type} (l : List α) (i : ℕ) (d : α) (h : l.length ≤ i) :
    l.getD i d = d := by
  induction l generalizing i with
  | nil => cases i <;> rfl
  | cons a rest ih =>
    cases i with
    | zero => simp at h
    | succ i => exact ih i (by simpa using h)

lemma set_oob {α : Type} (l : List α) (i : ℕ) (x : α) (h : l.length ≤ i) :
    l.set i x = l := by
  induction l generalizing i with
  | nil => rfl
  | cons a rest ih =>
    cases i with
    | zero => simp at h
    | succ i => simpa using ih i (by simpa using h)

lemma getD_replicate {α : Type} (n i : ℕ) (x d : α) (h : i < n) :
    (List.replicate n x).getD i d = x := by
  induction n generalizing i with
  | zero => omega
  | succ n ih =>
    cases i with
    | zero => rfl
    | succ i => exact ih i (by omega)

lemma findFirstIdx_spec {α : Type} (p : α → Bool) (d : α) :
    ∀ (l : List α) (i : ℕ), findFirstIdx p l = some i →
      i < l.length ∧ p (l.getD i d) = true := by
  intro l
  induction l with
  | nil => intro i h; simp [findFirstIdx] at h
  | cons a rest ih =>
    intro i h
    unfold findFirstIdx at h
    split at h
    · rename_i hpa
      simp only [Option.some.injEq] at h
      subst h
      exact ⟨by simp, hpa⟩
    · rcases Option.map_eq_some'.mp h with ⟨i', hi', rfl⟩
      rcases ih i' hi' with ⟨h1, h2⟩
      exact ⟨by simpa using h1, h2⟩

lemma findFirstIdx_none {α : Type} (p : α → Bool) (d : α) :
    ∀ (l : List α), findFirstIdx p l = none →
      ∀ j, j < l.length → p (l.getD j d) = false := by
  intro l
  induction l with
  | nil => intro _ j hj; simp at hj
  | cons a rest ih =>
    intro h j hj
    unfold findFirstIdx at h
    split at h
    · exact absurd h (by simp)
    · rename_i hpa
      cases j with
      | zero => simpa using hpa
      | succ j =>
        exact ih (by simpa using h) j (by simpa using hj)

/-! ## Claim C3: error-status persistence -/

lemma put_line_store_status (e : Engine) (i : ℕ) (row : List ℚ) :
    (put_line_store e i row).1.status = e.status := rfl

lemma put_line_status (e : Engine) (row : List ℚ) (ok : Bool) :
    (put_line e row ok).1.status = e.status
      ∨ (put_line e row ok).1.status = .scanBufferFull
      ∨ (put_line e row ok).1.status = .outOfMemory := by
  unfold put_line
  split
  · left; rfl
  · split
    · left; rfl
    · split
      · right; left; rfl
      · split
        · split
          · left; rfl
          · right; right; rfl
        · left; rfl

lemma put_line_mark_scan_buf_l (e : Engine) (i : ℕ) :
    (put_line_mark e i).scan_buf_l = e.scan_buf_l := rfl

lemma get_line_status (e : Engine) : (get_line e).1.status = e.status := by
  unfold get_line
  split
  · rfl
  · split
    · rfl
    · rfl

lemma restart_status (e : Engine) : (restart e).status = e.status := by
  unfold restart
  split
  · rfl
  · rfl

lemma stepOp_status_ne_okay (e : Engine) (op : Op) (h : e.status ≠ .okay) :
    (stepOp e op).status ≠ .okay := by
  cases op with
  | put row ok =>
    rcases put_line_status e row ok with h1 | h1 | h1 <;> rw [stepOp, h1]
    · exact h
    · simp
    · simp
  | get => rw [stepOp, get_line_status]; exact h
  | restart => rw [stepOp, restart_status]; exact h

lemma runOps_ne_okay (e : Engine) (ops : List Op) (h : e.status ≠ .okay) :
    (runOps e ops).status ≠ .okay := by
  induction ops generalizing e with
  | nil => exact h
  | cons op rest ih => exact ih (stepOp e op) (stepOp_status_ne_okay e op h)

/-- Claim C3, amended: an error status is persistent — once the status is not OK it
never returns to OK for the rest of the engine's life (`restart` refuses to run, and
no operation resets the status).  However `put_line`/`get_line` do not consult the
status, so a later call can still succeed (see the counterexample). -/
theorem status_never_clears (e : Engine) (ops : List Op) (h : e.status ≠ .okay) :
    (runOps e ops).status ≠ .okay :=
  runOps_ne_okay e ops h

/-- Witness for the amended C3: after an out-of-memory `put_line`, the status stays
non-OK across further calls. -/
theorem status_never_clears_witness :
    engBox22oom.status ≠ .okay
      ∧ (runOps engBox22oom [.get, .put [5, 5] true]).status ≠ .okay :=
  ⟨by decide, status_never_clears engBox22oom [.get, .put [5, 5] true] (by decide)⟩

/-- Claim C3 exactly as stated: with a non-OK status, every `put_line` returns failure
and every `get_line` returns no row.  Refuted: neither call inspects `m_status`; after
an out-of-memory failure, a retry of the same row with memory available succeeds and
returns `true` while the status is still `outOfMemory`. -/
theorem status_sticky_counterexample :
    ¬ (∀ e : Engine,
        (e.status = .outOfMemory ∨ e.status = .badFilterName
          ∨ e.status = .scanBufferFull) →
        (∀ row ok, (put_line e row ok).2 = false) ∧ (get_line e).2 = none) := by
  intro h
  have h2 := (h engBox22oom (by decide)).1 [5, 5] true
  exact absurd h2 (by decide)

/-! ## Claim C9: a dead source row is skipped -/

/-- Claim C9: when the current source row's reference count is zero, `put_line`
succeeds and only advances `cur_src_y`: no slot is acquired, no flag is set, and the
supplied row is never read (the result does not depend on `row` or `ok`). -/
theorem put_line_dead_row (e : Engine) (row : List ℚ) (ok : Bool)
    (hcur : e.cur_src_y < e.resample_src_y)
    (hcnt : e.Psrc_y_count.getD e.cur_src_y 0 = 0) :
    put_line e row ok = ({ e with cur_src_y := e.cur_src_y + 1 }, true) := by
  unfold put_line
  rw [if_neg (by omega), if_pos hcnt]

/-- Witness for C9 at a concrete state. -/
theorem put_line_dead_row_witness :
    put_line engDead [9, 9] true
      = ({ engDead with cur_src_y := engDead.cur_src_y + 1 }, true) :=
  put_line_dead_row engDead [9, 9] true (by decide) (by decide)

/-! ## Claim C10: no rollback after a failed slot allocation -/

/-- Claim C10: when the per-slot buffer allocation fails, `put_line` returns failure
with status `outOfMemory` but does not roll back: the chosen slot keeps tag
`cur_src_y` with its storage still unallocated, the present flag for `cur_src_y`
stays set, and `cur_src_y` is not advanced. -/
theorem put_line_alloc_fail (e : Engine) (row : List ℚ) (i : ℕ)
    (hcur : e.cur_src_y < e.resample_src_y)
    (hcnt : e.Psrc_y_count.getD e.cur_src_y 0 ≠ 0)
    (hfree : findFirstIdx (fun t => t = -1) e.scan_buf_y = some i)
    (hbuf : e.scan_buf_l.getD i none = none)
    (hflag : e.cur_src_y < e.Psrc_y_flag.length) :
    put_line e row false
        = ({ e with
              Psrc_y_flag := e.Psrc_y_flag.set e.cur_src_y true,
              scan_buf_y := e.scan_buf_y.set i (e.cur_src_y : ℤ),
              status := .outOfMemory }, false)
      ∧ ((put_line e row false).1.scan_buf_y.getD i 0 = (e.cur_src_y : ℤ)
        ∧ (put_line e row false).1.scan_buf_l.getD i none = none
        ∧ (put_line e row false).1.Psrc_y_flag.getD e.cur_src_y false = true
        ∧ (put_line e row false).1.cur_src_y = e.cur_src_y
        ∧ (put_line e row false).1.status = .outOfMemory) := by
  have hilen : i < e.scan_buf_y.length := (findFirstIdx_spec _ 0 _ _ hfree).1
  have heq : put_line e row false
      = ({ e with
            Psrc_y_flag := e.Psrc_y_flag.set e.cur_src_y true,
            scan_buf_y := e.scan_buf_y.set i (e.cur_src_y : ℤ),
            status := .outOfMemory }, false) := by
    unfold put_line
    rw [if_neg (by omega), if_neg hcnt]
    split
    · rename_i heq2
      rw [hfree] at heq2
      cases heq2
    · rename_i i2 heq2
      rw [hfree] at heq2
      injection heq2 with hi2
      subst hi2
      rw [show (put_line_mark e i).scan_buf_l.getD i none = none from hbuf]
      rfl
  refine ⟨heq, ?_⟩
  rw [heq]
  refine ⟨getD_set_self _ _ _ _ hilen, hbuf, getD_set_self _ _ _ _ hflag, rfl, rfl⟩

/-- Witness for C10: the out-of-memory `put_line` on the fresh 2-by-2 engine. -/
theorem put_line_alloc_fail_witness :
    (put_line engBox22 [5, 5] false).1.scan_buf_y.getD 0 0 = (engBox22.cur_src_y : ℤ)
      ∧ (put_line engBox22 [5, 5] false).1.scan_buf_l.getD 0 none = none
      ∧ (put_line engBox22 [5, 5] false).1.Psrc_y_flag.getD engBox22.cur_src_y false
          = true
      ∧ (put_line engBox22 [5, 5] false).1.cur_src_y = engBox22.cur_src_y
      ∧ (put_line engBox22 [5, 5] false).1.status = .outOfMemory :=
  (put_line_alloc_fail engBox22 [5, 5] 0 (by decide) (by decide) (by decide)
    (by decide) (by decide)).2

/-! ## Claim C8: the three branches of `get_line` -/

/-- Claim C8: `get_line` returns end-of-stream (no row, state unchanged) when
`cur_dst_y = dst_y`; returns no row with the entire state unchanged when some
contributor of the current destination row is not present; and otherwise produces
destination row `cur_dst_y` and advances `cur_dst_y` by one. -/
theorem get_line_cases (e : Engine) :
    (e.cur_dst_y = e.resample_dst_y → get_line e = (e, none)) ∧
    (e.cur_dst_y ≠ e.resample_dst_y →
      (∃ c ∈ (e.Pclist_y.getD e.cur_dst_y default).p,
        e.Psrc_y_flag.getD c.pixel false = false) →
      get_line e = (e, none)) ∧
    (e.cur_dst_y ≠ e.resample_dst_y →
      (∀ c ∈ (e.Pclist_y.getD e.cur_dst_y default).p,
        e.Psrc_y_flag.getD c.pixel false = true) →
      get_line e = ({ resample_y e with cur_dst_y := e.cur_dst_y + 1 },
        some (resample_y e).Pdst_buf)) := by
  refine ⟨fun h => ?_, fun h hmiss => ?_, fun h hall => ?_⟩
  · unfold get_line
    rw [if_pos h]
  · have hany : ((e.Pclist_y.getD e.cur_dst_y default).p.any
        (fun c => ! e.Psrc_y_flag.getD c.pixel false)) = true := by
      rw [List.any_eq_true]
      rcases hmiss with ⟨c, hc, hflag⟩
      exact ⟨c, hc, by rw [hflag]; rfl⟩
    unfold get_line
    rw [if_neg h, if_pos hany]
  · have hany : ((e.Pclist_y.getD e.cur_dst_y default).p.any
        (fun c => ! e.Psrc_y_flag.getD c.pixel false)) = false := by
      cases hb : ((e.Pclist_y.getD e.cur_dst_y default).p.any
          (fun c => ! e.Psrc_y_flag.getD c.pixel false)) with
      | false => rfl
      | true =>
        rcases List.any_eq_true.mp hb with ⟨c, hc, hflag⟩
        rw [hall c hc] at hflag
        simp at hflag
    unfold get_line
    rw [if_neg h, if_neg (by rw [hany]; simp)]
    rfl

/-- Witness for C8: the fresh 2-by-2 engine is not ready (row 0 not yet put). -/
theorem get_line_cases_witness : get_line engBox22 = (engBox22, none) :=
  (get_line_cases engBox22).2.1 (by decide) ⟨⟨0, 1⟩, by decide, by decide⟩

/-! ## Claim C4: the axis-order decision -/

lemma mkEngineFinish_delay (e0 : Engine) (clx cly : List Contrib_List)
    (xf yf : Bool) :
    (mkEngineFinish e0 clx cly xf yf).delay_x_resample
      = decide ((4 * count_ops cly e0.resample_dst_y * e0.resample_src_x) / 3
            + count_ops clx e0.resample_dst_x * e0.resample_dst_y
          < count_ops clx e0.resample_dst_x * e0.resample_src_y
            + (4 * count_ops cly e0.resample_dst_y * e0.resample_dst_x) / 3
        ∨ (count_ops clx e0.resample_dst_x * e0.resample_src_y
              + (4 * count_ops cly e0.resample_dst_y * e0.resample_dst_x) / 3
            = (4 * count_ops cly e0.resample_dst_y * e0.resample_src_x) / 3
              + count_ops clx e0.resample_dst_x * e0.resample_dst_y
          ∧ e0.resample_src_x < e0.resample_dst_x)) := rfl

lemma mkEngineFinish_intermediate (e0 : Engine) (clx cly : List Contrib_List)
    (xf yf : Bool) :
    (mkEngineFinish e0 clx cly xf yf).intermediate_x
      = (if (mkEngineFinish e0 clx cly xf yf).delay_x_resample
          then e0.resample_src_x else e0.resample_dst_x) := rfl

lemma mkEngineFinish_clists (e0 : Engine) (clx cly : List Contrib_List)
    (xf yf : Bool) :
    (mkEngineFinish e0 clx cly xf yf).Pclist_x = clx
      ∧ (mkEngineFinish e0 clx cly xf yf).Pclist_y = cly := ⟨rfl, rfl⟩

lemma mkEngine_cases (src_x src_y dst_x dst_y : ℕ) (op : Boundary_Op) (lo hi : ℚ)
    (name : Option String) (gf : List (String × (ℚ → ℚ) × ℚ))
    (clxa clya : Option (List Contrib_List)) (fxs fys xofs yofs : ℚ) :
    (mkEngine src_x src_y dst_x dst_y op lo hi name gf clxa clya fxs fys xofs
        yofs).status ≠ .okay
      ∨ ∃ clx cly xf yf,
          mkEngine src_x src_y dst_x dst_y op lo hi name gf clxa clya fxs fys
              xofs yofs
            = mkEngineFinish (mkEngineBase src_x src_y dst_x dst_y op lo hi)
                clx cly xf yf := by
  unfold mkEngine
  split
  · left; exact fun hc => Status.noConfusion hc
  · split
    · split
      · left; exact fun hc => Status.noConfusion hc
      · split
        · split
          · left; exact fun hc => Status.noConfusion hc
          · right; exact ⟨_, _, _, _, rfl⟩
        · right; exact ⟨_, _, _, _, rfl⟩
    · split
      · split
        · left; exact fun hc => Status.noConfusion hc
        · right; exact ⟨_, _, _, _, rfl⟩
      · right; exact ⟨_, _, _, _, rfl⟩

/-- Claim C4: at construction (when it completes with status OK), the engine delays X
resampling exactly when `xy_ops > yx_ops`, or on a tie when `src_x < dst_x`, where
`x_ops`/`y_ops` are the total contributor counts of the two axes and
`xy_ops = x_ops*src_y + (4*y_ops*dst_x)/3`, `yx_ops = (4*y_ops*src_x)/3 + x_ops*dst_y`
(integer division); and `intermediate_x` is `src_x` when delaying, else `dst_x`. -/
theorem mkEngine_axis_order
    (src_x src_y dst_x dst_y : ℕ) (op : Boundary_Op) (lo hi : ℚ)
    (name : Option String) (gf : List (String × (ℚ → ℚ) × ℚ))
    (clxa clya : Option (List Contrib_List)) (fxs fys xofs yofs : ℚ)
    (E : Engine)
    (hE : E = mkEngine src_x src_y dst_x dst_y op lo hi name gf clxa clya
      fxs fys xofs yofs)
    (hsx : 0 < src_x) (hsy : 0 < src_y) (hdx : 0 < dst_x) (hdy : 0 < dst_y)
    (hok : E.status = .okay) :
    (E.delay_x_resample = true ↔
      ((4 * count_ops E.Pclist_y dst_y * src_x) / 3
          + count_ops E.Pclist_x dst_x * dst_y
        < count_ops E.Pclist_x dst_x * src_y
          + (4 * count_ops E.Pclist_y dst_y * dst_x) / 3
       ∨ (count_ops E.Pclist_x dst_x * src_y
              + (4 * count_ops E.Pclist_y dst_y * dst_x) / 3
            = (4 * count_ops E.Pclist_y dst_y * src_x) / 3
              + count_ops E.Pclist_x dst_x * dst_y
          ∧ src_x < dst_x)))
    ∧ E.intermediate_x = (if E.delay_x_resample then src_x else dst_x) := by
  subst hE
  rcases mkEngine_cases src_x src_y dst_x dst_y op lo hi name gf clxa clya fxs fys
      xofs yofs with hbad | ⟨clx, cly, xf, yf, hform⟩
  · exact absurd hok hbad
  · rw [hform]
    constructor
    · rw [(mkEngineFinish_clists _ _ _ _ _).1, (mkEngineFinish_clists _ _ _ _ _).2,
        mkEngineFinish_delay]
      exact decide_eq_true_iff
    · rw [mkEngineFinish_intermediate]
      rfl

/-- Witness for C4 at the concrete 2-by-2 box instance (a tie with `src_x = dst_x`,
hence no delay and `intermediate_x = dst_x`). -/
theorem mkEngine_axis_order_witness :
    engBox22.intermediate_x = (if engBox22.delay_x_resample then 2 else 2) :=
  (mkEngine_axis_order 2 2 2 2 .clamp 0 0 (some "box") ratFilters none none 1 1 0 0
    engBox22 rfl (by decide) (by decide) (by decide) (by decide) (by decide)).2

/-! ## Claim C5: reference-count conservation -/

lemma multL_cons (s : ℕ) (c : Contrib) (l : List Contrib) :
    multL s (c :: l) = (if c.pixel = s then 1 else 0) + multL s l := by
  unfold multL
  rw [List.filter_cons]
  split
  · rename_i h
    rw [if_pos (by simpa using h)]
    simp [Nat.add_comm]
  · rename_i h
    rw [if_neg (by simpa using h)]
    simp

lemma multL_cons_self {s : ℕ} {c : Contrib} (l : List Contrib) (h : c.pixel = s) :
    multL s (c :: l) = multL s l + 1 := by
  rw [multL_cons, if_pos h, Nat.add_comm]

lemma multL_cons_ne {s : ℕ} {c : Contrib} (l : List Contrib) (h : c.pixel ≠ s) :
    multL s (c :: l) = multL s l := by
  rw [multL_cons, if_neg h, Nat.zero_add]

lemma bumpCounts_length (counts : List ℤ) (ps : List Contrib) :
    (bumpCounts counts ps).length = counts.length := by
  induction ps generalizing counts with
  | nil => rfl
  | cons c rest ih =>
    unfold bumpCounts
    rw [List.foldl_cons]
    rw [show List.foldl _ _ rest = bumpCounts (counts.set c.pixel
      (counts.getD c.pixel 0 + 1)) rest from rfl]
    rw [ih, List.length_set]

lemma bumpCounts_getD (counts : List ℤ) (ps : List Contrib) (s : ℕ)
    (h : s < counts.length) :
    (bumpCounts counts ps).getD s 0 = counts.getD s 0 + (multL s ps : ℤ) := by
  induction ps generalizing counts with
  | nil => simp [bumpCounts, multL]
  | cons c rest ih =>
    unfold bumpCounts
    rw [List.foldl_cons]
    rw [show List.foldl _ _ rest = bumpCounts (counts.set c.pixel
      (counts.getD c.pixel 0 + 1)) rest from rfl]
    rw [ih _ (by rw [List.length_set]; exact h), multL_cons]
    by_cases hps : c.pixel = s
    · subst hps
      rw [getD_set_self _ _ _ _ h, if_pos rfl]
      push_cast
      ring
    · rw [getD_set_ne _ _ _ _ _ hps, if_neg hps]
      push_cast
      ring

lemma computeCounts_length (cls : List Contrib_List) (dst_y src_y : ℕ) :
    (computeCounts cls dst_y src_y).length = src_y := by
  induction dst_y with
  | zero => simp [computeCounts]
  | succ n ih =>
    unfold computeCounts
    rw [List.range_succ, List.foldl_append, List.foldl_cons, List.foldl_nil]
    rw [show List.foldl _ _ (List.range n) = computeCounts cls n src_y from rfl]
    rw [bumpCounts_length, ih]

lemma computeCounts_getD (cls : List Contrib_List) (dst_y src_y s : ℕ)
    (h : s < src_y) :
    (computeCounts cls dst_y src_y).getD s 0
      = ∑ d ∈ Finset.Ico 0 dst_y, (multY cls d s : ℤ) := by
  induction dst_y with
  | zero => simp [computeCounts, getD_replicate _ _ _ _ h]
  | succ n ih =>
    unfold computeCounts
    rw [List.range_succ, List.foldl_append, List.foldl_cons, List.foldl_nil]
    rw [show List.foldl _ _ (List.range n) = computeCounts cls n src_y from rfl]
    rw [bumpCounts_getD _ _ _ (by rw [computeCounts_length]; exact h), ih]
    rw [Finset.sum_Ico_succ_top (Nat.zero_le n)]
    rfl

lemma toNat_ne_of_ne {T : ℤ} {p : ℕ} (hge : 0 ≤ T) (hne : T ≠ (p : ℤ)) :
    T.toNat ≠ p := by omega

lemma slotOf_some {tags : List ℤ} {c : Contrib} {j0 : ℕ}
    (h : findFirstIdx (fun t => t = (c.pixel : ℤ)) tags = some j0) :
    slotOf tags c = j0 := by
  unfold slotOf
  rw [h]
  rfl

lemma findFirstIdx_some_tag {tags : List ℤ} {c : Contrib} {j0 : ℕ}
    (h : findFirstIdx (fun t => t = (c.pixel : ℤ)) tags = some j0) :
    j0 < tags.length ∧ tags.getD j0 0 = (c.pixel : ℤ) := by
  rcases findFirstIdx_spec _ (0 : ℤ) _ _ h with ⟨h1, h2⟩
  exact ⟨h1, of_decide_eq_true h2⟩

lemma findFirstIdx_none_tag {tags : List ℤ} {c : Contrib}
    (h : findFirstIdx (fun t => t = (c.pixel : ℤ)) tags = none) :
    ∀ j, j < tags.length → tags.getD j 0 ≠ (c.pixel : ℤ) := by
  intro j hj
  have := findFirstIdx_none (fun t => t = (c.pixel : ℤ)) (0 : ℤ) tags h j hj
  exact of_decide_eq_false this

lemma resample_y_step_inv (scan_l : List (Option (List ℚ))) (inter srcy : ℕ)
    (rest : ℕ → ℤ) (c : Contrib) (l' : List Contrib) (first : Bool) (st : YState)
    (hrest : ∀ s, s < srcy → 0 ≤ rest s)
    (hlen : st.counts.length = srcy)
    (hp : c.pixel < srcy)
    (hA : ∀ s, s < srcy → st.counts.getD s 0 = rest s + (multL s (c :: l') : ℤ))
    (hlive : TagsLive st.tags st.counts srcy)
    (hdist : TagsDistinct st.tags)
    (hcov : FlagsCovered st.flags st.tags srcy) :
    (resample_y_step scan_l inter c first st).counts.length = srcy
    ∧ (resample_y_step scan_l inter c first st).flags.length = st.flags.length
    ∧ (resample_y_step scan_l inter c first st).tags.length = st.tags.length
    ∧ (∀ s, s < srcy → (resample_y_step scan_l inter c first st).counts.getD s 0
        = rest s + (multL s l' : ℤ))
    ∧ TagsLive (resample_y_step scan_l inter c first st).tags
        (resample_y_step scan_l inter c first st).counts srcy
    ∧ TagsDistinct (resample_y_step scan_l inter c first st).tags
    ∧ FlagsCovered (resample_y_step scan_l inter c first st).flags
        (resample_y_step scan_l inter c first st).tags srcy
    ∧ (∀ j, (resample_y_step scan_l inter c first st).tags.getD j 0
          = st.tags.getD j 0
        ∨ (resample_y_step scan_l inter c first st).tags.getD j 0 = -1) := by
  have hAc := hA c.pixel hp
  rw [multL_cons_self _ rfl] at hAc
  have hcnt : st.counts.getD c.pixel 0 - 1 = rest c.pixel + (multL c.pixel l' : ℤ) := by
    rw [hAc]
    push_cast
    ring
  have hplen : c.pixel < st.counts.length := by omega
  have hnewA : ∀ s, s < srcy →
      (st.counts.set c.pixel (st.counts.getD c.pixel 0 - 1)).getD s 0
        = rest s + (multL s l' : ℤ) := by
    intro s hs
    by_cases hsp : s = c.pixel
    · subst hsp
      rw [getD_set_self _ _ _ _ hplen, hcnt]
    · rw [getD_set_ne _ _ _ _ _ (fun hc => hsp hc.symm), hA s hs,
        multL_cons_ne _ (fun hc => hsp hc.symm)]
  unfold resample_y_step
  split
  · rename_i hz
    have hrp : rest c.pixel = 0 ∧ (multL c.pixel l' : ℤ) = 0 := by
      have h1 := hrest c.pixel hp
      have h2 : (0 : ℤ) ≤ (multL c.pixel l' : ℤ) := by positivity
      omega
    have hmono : ∀ j, (st.tags.set (slotOf st.tags c) (-1)).getD j 0
        = st.tags.getD j 0 ∨ (st.tags.set (slotOf st.tags c) (-1)).getD j 0 = -1 := by
      intro j
      by_cases hjs : slotOf st.tags c = j
      · by_cases hsl : slotOf st.tags c < st.tags.length
        · right
          rw [hjs] at hsl
          rw [← hjs, getD_set_self _ _ _ _ (hjs ▸ hsl)]
        · left
          rw [set_oob _ _ _ (by omega)]
      · left
        rw [getD_set_ne _ _ _ _ _ hjs]
    have hnotag : ∀ j, j < st.tags.length →
        (st.tags.set (slotOf st.tags c) (-1)).getD j 0 ≠ (c.pixel : ℤ) := by
      intro j hj
      cases hjf : findFirstIdx (fun t => t = (c.pixel : ℤ)) st.tags with
      | some j0 =>
        rcases findFirstIdx_some_tag hjf with ⟨hj0len, hj0tag⟩
        rw [slotOf_some hjf]
        by_cases hjj : j0 = j
        · subst hjj
          rw [getD_set_self _ _ _ _ hj0len]
          omega
        · rw [getD_set_ne _ _ _ _ _ hjj]
          intro hcon
          exact hdist j j0 hj hj0len (fun hc => hjj hc.symm)
            (by rw [hcon]; positivity) (by rw [hcon, hj0tag])
      | none =>
        rw [show slotOf st.tags c = st.tags.length from by
          unfold slotOf; rw [hjf]; rfl]
        rw [set_oob _ _ _ (le_refl _)]
        exact findFirstIdx_none_tag hjf j hj
    refine ⟨by rw [List.length_set]; exact hlen, List.length_set _ _ _,
      List.length_set _ _ _, hnewA, ?_, ?_, ?_, hmono⟩
    · intro j hj
      rw [List.length_set] at hj
      rcases hmono j with hm | hm
      · rw [hm]
        rcases hlive j hj with h1 | ⟨hge, hlt, hpos⟩
        · left; exact h1
        · right
          refine ⟨hge, hlt, ?_⟩
          have hne : (st.tags.getD j 0).toNat ≠ c.pixel := by
            have := hnotag j hj
            rw [hm] at this
            exact toNat_ne_of_ne hge this
          rw [getD_set_ne _ _ _ _ _ (fun hc => hne hc.symm)]
          exact hpos
      · left; exact hm
    · intro j k hj hk hjk hge
      rw [List.length_set] at hj hk
      rcases hmono j with hmj | hmj
      · rcases hmono k with hmk | hmk
        · rw [hmj, hmk]
          rw [hmj] at hge
          exact hdist j k hj hk hjk hge
        · rw [hmj, hmk]
          rw [hmj] at hge
          omega
      · rw [hmj] at hge
        omega
    · intro s hs hfl
      by_cases hsp : s = c.pixel
      · exfalso
        by_cases hfll : c.pixel < st.flags.length
        · rw [hsp, getD_set_self _ _ _ _ hfll] at hfl
          cases hfl
        · rw [hsp, set_oob st.flags c.pixel false (by omega),
            getD_oob st.flags c.pixel false (by omega)] at hfl
          cases hfl
      · rw [getD_set_ne _ _ _ _ _ (fun hc => hsp hc.symm)] at hfl
        rcases hcov s hs hfl with ⟨j, hj, htag⟩
        refine ⟨j, by rw [List.length_set]; exact hj, ?_⟩
        cases hjf : findFirstIdx (fun t => t = (c.pixel : ℤ)) st.tags with
        | some j0 =>
          rcases findFirstIdx_some_tag hjf with ⟨hj0len, hj0tag⟩
          rw [slotOf_some hjf]
          have hjj : j0 ≠ j := by
            intro hc
            subst hc
            rw [htag] at hj0tag
            exact hsp (by exact_mod_cast hj0tag)
          rw [getD_set_ne _ _ _ _ _ hjj]
          exact htag
        | none =>
          rw [show slotOf st.tags c = st.tags.length from by
            unfold slotOf; rw [hjf]; rfl]
          rw [set_oob _ _ _ (le_refl _)]
          exact htag
  · rename_i hz
    have hpos : 0 < st.counts.getD c.pixel 0 - 1 := by
      have h1 := hrest c.pixel hp
      have h2 : (0 : ℤ) ≤ (multL c.pixel l' : ℤ) := by positivity
      omega
    refine ⟨by rw [List.length_set]; exact hlen, rfl, rfl, hnewA, ?_, hdist, hcov,
      fun j => Or.inl rfl⟩
    intro j hj
    rcases hlive j hj with h1 | ⟨hge, hlt, hpos2⟩
    · left; exact h1
    · right
      refine ⟨hge, hlt, ?_⟩
      by_cases htp : (st.tags.getD j 0).toNat = c.pixel
      · rw [htp, getD_set_self _ _ _ _ hplen]
        exact hpos
      · rw [getD_set_ne _ _ _ _ _ (fun hc => htp hc.symm)]
        exact hpos2

lemma resample_y_loop_inv (scan_l : List (Option (List ℚ))) (inter srcy : ℕ)
    (rest : ℕ → ℤ) (hrest : ∀ s, s < srcy → 0 ≤ rest s) :
    ∀ (l : List Contrib) (first : Bool) (st : YState),
      st.counts.length = srcy →
      (∀ c ∈ l, c.pixel < srcy) →
      (∀ s, s < srcy → st.counts.getD s 0 = rest s + (multL s l : ℤ)) →
      TagsLive st.tags st.counts srcy →
      TagsDistinct st.tags →
      FlagsCovered st.flags st.tags srcy →
      (resample_y_loop scan_l inter l first st).counts.length = srcy
      ∧ (resample_y_loop scan_l inter l first st).flags.length = st.flags.length
      ∧ (resample_y_loop scan_l inter l first st).tags.length = st.tags.length
      ∧ (∀ s, s < srcy →
          (resample_y_loop scan_l inter l first st).counts.getD s 0 = rest s)
      ∧ TagsLive (resample_y_loop scan_l inter l first st).tags
          (resample_y_loop scan_l inter l first st).counts srcy
      ∧ TagsDistinct (resample_y_loop scan_l inter l first st).tags
      ∧ FlagsCovered (resample_y_loop scan_l inter l first st).flags
          (resample_y_loop scan_l inter l first st).tags srcy
      ∧ (∀ j, (resample_y_loop scan_l inter l first st).tags.getD j 0
            = st.tags.getD j 0
          ∨ (resample_y_loop scan_l inter l first st).tags.getD j 0 = -1) := by
  intro l
  induction l with
  | nil =>
    intro first st hlen hall hA hlive hdist hcov
    refine ⟨hlen, rfl, rfl, ?_, hlive, hdist, hcov, fun j => Or.inl rfl⟩
    intro s hs
    show st.counts.getD s 0 = rest s
    rw [hA s hs]
    simp [multL]
  | cons c l' ih =>
    intro first st hlen hall hA hlive hdist hcov
    rcases resample_y_step_inv scan_l inter srcy rest c l' first st hrest hlen
      (hall c (by simp)) hA hlive hdist hcov with
      ⟨h1, h2, h3, h4, h5, h6, h7, h8⟩
    rcases ih false (resample_y_step scan_l inter c first st) h1
      (fun c' hc' => hall c' (by simp [hc'])) h4 h5 h6 h7 with
      ⟨g1, g2, g3, g4, g5, g6, g7, g8⟩
    simp only [resample_y_loop]
    refine ⟨g1, by rw [g2, h2], by rw [g3, h3], g4, g5, g6, g7, ?_⟩
    intro j
    rcases g8 j with hg | hg
    · rw [hg]
      exact h8 j
    · right
      exact hg

lemma lt_length_of_getD_true {flags : List Bool} {p : ℕ}
    (h : flags.getD p false = true) : p < flags.length := by
  by_contra hge
  rw [getD_oob _ _ _ (by omega)] at h
  cases h

lemma all_present_of_any_eq_false {l : List Contrib} {flags : List Bool}
    (h : (l.any (fun c => ! flags.getD c.pixel false)) = false) :
    ∀ c ∈ l, flags.getD c.pixel false = true := by
  intro c hc
  cases hfl : flags.getD c.pixel false with
  | true => rfl
  | false =>
    have hx : (l.any (fun c => ! flags.getD c.pixel false)) = true :=
      List.any_eq_true.mpr ⟨c, hc, by rw [hfl]; rfl⟩
    rw [h] at hx
    cases hx

/-- Any engine whose reference counts, flags and slot tags are in the
freshly-initialized shape (constructor lines 1110-1141 / `restart`) satisfies the
invariant. -/
lemma inv_of_init_fields (e : Engine)
    (hc : e.Psrc_y_count
      = computeCounts e.Pclist_y e.resample_dst_y e.resample_src_y)
    (hf : e.Psrc_y_flag = List.replicate e.resample_src_y false)
    (ht : e.scan_buf_y = List.replicate MAX_SCAN_BUF_SIZE (-1))
    (hcd : e.cur_dst_y = 0) :
    EngineInv e := by
  refine ⟨?_, ?_, ?_, ?_, ?_, ?_, ?_, ?_⟩
  · rw [hc, computeCounts_length]
  · rw [hf, List.length_replicate]
  · rw [hcd]; exact Nat.zero_le _
  · intro s hs
    rw [hc, computeCounts_getD _ _ _ _ hs, hcd]
  · intro j hj
    left
    rw [ht] at hj ⊢
    rw [List.length_replicate] at hj
    exact getD_replicate _ _ _ _ hj
  · intro j k hj hk hjk hge
    exfalso
    rw [ht] at hj hge
    rw [List.length_replicate] at hj
    rw [getD_replicate _ _ _ _ hj] at hge
    omega
  · intro j hj
    rw [ht] at hj ⊢
    rw [List.length_replicate] at hj
    rw [getD_replicate _ _ _ _ hj]
    omega
  · intro s hs hfl
    exfalso
    rw [hf, getD_replicate _ _ _ _ (by omega)] at hfl
    cases hfl

lemma cur_src_advance_inv (e : Engine) (hinv : EngineInv e) :
    EngineInv { e with cur_src_y := e.cur_src_y + 1 } := by
  obtain ⟨h1, h2, h3, h4, h5, h6, h7, h8⟩ := hinv
  refine ⟨h1, h2, h3, h4, h5, h6, ?_, h8⟩
  intro j hj
  have := h7 j hj
  show e.scan_buf_y.getD j 0 < ((e.cur_src_y + 1 : ℕ) : ℤ)
  push_cast
  omega

lemma put_line_store_inv (e : Engine) (row : List ℚ) (i : ℕ) (hinv : EngineInv e)
    (hcur : e.cur_src_y < e.resample_src_y)
    (hcnt : e.Psrc_y_count.getD e.cur_src_y 0 ≠ 0)
    (hfind : findFirstIdx (fun t => t = -1) e.scan_buf_y = some i) :
    EngineInv (put_line_store (put_line_mark e i) i row).1 := by
  obtain ⟨h1, h2, h3, h4, h5, h6, h7, h8⟩ := hinv
  have hilen : i < e.scan_buf_y.length := (findFirstIdx_spec _ (0 : ℤ) _ _ hfind).1
  have hti : e.scan_buf_y.getD i 0 = -1 :=
    of_decide_eq_true (findFirstIdx_spec _ (0 : ℤ) _ _ hfind).2
  have hcntpos : 0 < e.Psrc_y_count.getD e.cur_src_y 0 := by
    have hsum : 0 ≤ ∑ d ∈ Finset.Ico e.cur_dst_y e.resample_dst_y,
        (multY e.Pclist_y d e.cur_src_y : ℤ) :=
      Finset.sum_nonneg (fun d _ => Int.natCast_nonneg _)
    have := h4 e.cur_src_y hcur
    omega
  refine ⟨h1, ?_, h3, h4, ?_, ?_, ?_, ?_⟩
  · show (e.Psrc_y_flag.set e.cur_src_y true).length = e.resample_src_y
    rw [List.length_set]
    exact h2
  · show TagsLive (e.scan_buf_y.set i (e.cur_src_y : ℤ)) e.Psrc_y_count
      e.resample_src_y
    intro j hj
    rw [List.length_set] at hj
    by_cases hji : i = j
    · subst hji
      rw [getD_set_self _ _ _ _ hilen]
      right
      refine ⟨Int.natCast_nonneg _, ?_, ?_⟩
      · rw [Int.toNat_natCast]
        exact hcur
      · rw [Int.toNat_natCast]
        exact hcntpos
    · rw [getD_set_ne _ _ _ _ _ hji]
      exact h5 j hj
  · show TagsDistinct (e.scan_buf_y.set i (e.cur_src_y : ℤ))
    intro j k hj hk hjk hge
    rw [List.length_set] at hj hk
    by_cases hji : i = j
    · subst hji
      rw [getD_set_self _ _ _ _ hilen,
        getD_set_ne _ _ _ _ _ (fun hc => hjk hc)]
      have := h7 k hk
      omega
    · rw [getD_set_ne _ _ _ _ _ hji]
      by_cases hki : i = k
      · subst hki
        rw [getD_set_self _ _ _ _ hilen]
        have := h7 j hj
        omega
      · rw [getD_set_ne _ _ _ _ _ hki]
        rw [getD_set_ne _ _ _ _ _ hji] at hge
        exact h6 j k hj hk hjk hge
  · show ∀ j, j < (e.scan_buf_y.set i (e.cur_src_y : ℤ)).length →
      (e.scan_buf_y.set i (e.cur_src_y : ℤ)).getD j 0 < ((e.cur_src_y + 1 : ℕ) : ℤ)
    intro j hj
    rw [List.length_set] at hj
    by_cases hji : i = j
    · subst hji
      rw [getD_set_self _ _ _ _ hilen]
      push_cast
      omega
    · rw [getD_set_ne _ _ _ _ _ hji]
      have := h7 j hj
      push_cast
      omega
  · show FlagsCovered (e.Psrc_y_flag.set e.cur_src_y true)
      (e.scan_buf_y.set i (e.cur_src_y : ℤ)) e.resample_src_y
    intro s hs hfl
    by_cases hsc : s = e.cur_src_y
    · refine ⟨i, by rw [List.length_set]; exact hilen, ?_⟩
      rw [getD_set_self _ _ _ _ hilen, hsc]
    · rw [getD_set_ne _ _ _ _ _ (fun hc => hsc hc.symm)] at hfl
      rcases h8 s hs hfl with ⟨j, hj, htag⟩
      refine ⟨j, by rw [List.length_set]; exact hj, ?_⟩
      have hji : i ≠ j := by
        intro hc
        subst hc
        rw [hti] at htag
        omega
      rw [getD_set_ne _ _ _ _ _ hji]
      exact htag

lemma put_line_shape (e : Engine) (row : List ℚ) (ok : Bool) :
    (put_line e row ok).1 = e
    ∨ (put_line e row ok).1 = { e with cur_src_y := e.cur_src_y + 1 }
    ∨ (put_line e row ok).1.status ≠ .okay
    ∨ (∃ i, findFirstIdx (fun t => t = -1) e.scan_buf_y = some i
        ∧ e.cur_src_y < e.resample_src_y
        ∧ e.Psrc_y_count.getD e.cur_src_y 0 ≠ 0
        ∧ (put_line e row ok).1 = (put_line_store (put_line_mark e i) i row).1) := by
  unfold put_line
  split
  · left; rfl
  · rename_i hcur
    split
    · right; left; rfl
    · rename_i hcnt
      split
      · right; right; left
        exact fun hc => Status.noConfusion hc
      · rename_i i hfound
        split
        · split
          · right; right; right
            exact ⟨i, hfound, by omega, hcnt, rfl⟩
          · right; right; left
            exact fun hc => Status.noConfusion hc
        · right; right; right
          exact ⟨i, hfound, by omega, hcnt, rfl⟩

lemma put_line_inv (e : Engine) (row : List ℚ) (ok : Bool) (hinv : EngineInv e)
    (hok : (put_line e row ok).1.status = .okay) :
    EngineInv (put_line e row ok).1 := by
  rcases put_line_shape e row ok with h | h | h | ⟨i, hfind, hcur, hcnt, h⟩
  · rw [h]; exact hinv
  · rw [h]; exact cur_src_advance_inv e hinv
  · exact absurd hok h
  · rw [h]; exact put_line_store_inv e row i hinv hcur hcnt hfind

lemma resample_y_advance_inv (e : Engine) (hinv : EngineInv e)
    (hne : e.cur_dst_y ≠ e.resample_dst_y)
    (hall : ∀ c ∈ (e.Pclist_y.getD e.cur_dst_y default).p,
      e.Psrc_y_flag.getD c.pixel false = true) :
    EngineInv { resample_y e with cur_dst_y := (resample_y e).cur_dst_y + 1 } := by
  obtain ⟨h1, h2, h3, h4, h5, h6, h7, h8⟩ := hinv
  have hcurlt : e.cur_dst_y < e.resample_dst_y := lt_of_le_of_ne h3 hne
  have hallpix : ∀ c ∈ (e.Pclist_y.getD e.cur_dst_y default).p,
      c.pixel < e.resample_src_y := by
    intro c hc
    have hlt := lt_length_of_getD_true (hall c hc)
    omega
  have hrestnn : ∀ s, s < e.resample_src_y →
      0 ≤ ∑ d ∈ Finset.Ico (e.cur_dst_y + 1) e.resample_dst_y,
        (multY e.Pclist_y d s : ℤ) :=
    fun s _ => Finset.sum_nonneg (fun d _ => Int.natCast_nonneg _)
  have hAsplit : ∀ s, s < e.resample_src_y → e.Psrc_y_count.getD s 0
      = (∑ d ∈ Finset.Ico (e.cur_dst_y + 1) e.resample_dst_y,
          (multY e.Pclist_y d s : ℤ))
        + (multL s (e.Pclist_y.getD e.cur_dst_y default).p : ℤ) := by
    intro s hs
    rw [h4 s hs, Finset.sum_eq_sum_Ico_succ_bot hcurlt]
    rw [add_comm]
    rfl
  rcases resample_y_loop_inv e.scan_buf_l e.intermediate_x e.resample_src_y
      (fun s => ∑ d ∈ Finset.Ico (e.cur_dst_y + 1) e.resample_dst_y,
        (multY e.Pclist_y d s : ℤ))
      hrestnn (e.Pclist_y.getD e.cur_dst_y default).p true
      ⟨(if e.delay_x_resample then e.Ptmp_buf else e.Pdst_buf),
       e.Psrc_y_count, e.Psrc_y_flag, e.scan_buf_y⟩
      h1 hallpix hAsplit h5 h6 h8 with ⟨g1, g2, g3, g4, g5, g6, g7, g8⟩
  refine ⟨g1, g2.trans h2, by show e.cur_dst_y + 1 ≤ e.resample_dst_y; omega,
    ?_, g5, g6, ?_, g7⟩
  · intro s hs
    exact g4 s hs
  · intro j hj
    rw [show ({ resample_y e with
        cur_dst_y := (resample_y e).cur_dst_y + 1 } : Engine).scan_buf_y
      = (resample_y_state e).tags from rfl] at hj
    show (resample_y_state e).tags.getD j 0 < (e.cur_src_y : ℤ)
    rcases g8 j with hg | hg
    · rw [show (resample_y_state e).tags.getD j 0
          = e.scan_buf_y.getD j 0 from hg]
      exact h7 j (by rw [← g3.trans rfl]; exact hj)
    · rw [show (resample_y_state e).tags.getD j 0 = -1 from hg]
      omega

lemma get_line_inv (e : Engine) (hinv : EngineInv e) : EngineInv (get_line e).1 := by
  unfold get_line
  split
  · exact hinv
  · split
    · exact hinv
    · rename_i hne hany
      have hanyf : ((e.Pclist_y.getD e.cur_dst_y default).p.any
          (fun c => ! e.Psrc_y_flag.getD c.pixel false)) = false := by
        revert hany
        cases ((e.Pclist_y.getD e.cur_dst_y default).p.any
            (fun c => ! e.Psrc_y_flag.getD c.pixel false)) <;> simp
      exact resample_y_advance_inv e hinv hne (all_present_of_any_eq_false hanyf)

lemma stepOp_inv (e : Engine) (op : Op) (hinv : EngineInv e)
    (hok : (stepOp e op).status = .okay) : EngineInv (stepOp e op) := by
  cases op with
  | put row ok => exact put_line_inv e row ok hinv hok
  | get => exact get_line_inv e hinv
  | restart =>
    show EngineInv (restart e)
    unfold restart
    split
    · exact hinv
    · exact inv_of_init_fields _ rfl rfl rfl rfl

lemma runOps_inv (e : Engine) (ops : List Op) (hinv : EngineInv e)
    (hok : (runOps e ops).status = .okay) : EngineInv (runOps e ops) := by
  induction ops generalizing e with
  | nil => exact hinv
  | cons op rest ih =>
    by_cases hst : (stepOp e op).status = .okay
    · exact ih (stepOp e op) (stepOp_inv e op hinv hst) hok
    · exact absurd hok (runOps_ne_okay (stepOp e op) rest hst)

lemma mkEngine_inv (src_x src_y dst_x dst_y : ℕ) (op : Boundary_Op) (lo hi : ℚ)
    (name : Option String) (gf : List (String × (ℚ → ℚ) × ℚ))
    (clxa clya : Option (List Contrib_List)) (fxs fys xofs yofs : ℚ)
    (hok : (mkEngine src_x src_y dst_x dst_y op lo hi name gf clxa clya fxs fys
      xofs yofs).status = .okay) :
    EngineInv (mkEngine src_x src_y dst_x dst_y op lo hi name gf clxa clya fxs fys
      xofs yofs) := by
  rcases mkEngine_cases src_x src_y dst_x dst_y op lo hi name gf clxa clya fxs fys
      xofs yofs with hbad | ⟨clx, cly, xf, yf, hform⟩
  · exact absurd hok hbad
  · rw [hform]
    exact inv_of_init_fields _ rfl rfl rfl rfl

/-- Claim C5: for every construction and every sequence of caller actions that ends at
end-of-stream (`cur_dst_y = dst_y`) with no error status raised, every source row's
reference count is 0 and every scan-buffer slot tag is `-1` (all slots free). -/
theorem refcounts_zero_at_end
    (src_x src_y dst_x dst_y : ℕ) (op : Boundary_Op) (lo hi : ℚ)
    (name : Option String) (gf : List (String × (ℚ → ℚ) × ℚ))
    (clxa clya : Option (List Contrib_List)) (fxs fys xofs yofs : ℚ)
    (ops : List Op) (E : Engine)
    (hE : E = runOps (mkEngine src_x src_y dst_x dst_y op lo hi name gf clxa clya
      fxs fys xofs yofs) ops)
    (hok : E.status = .okay)
    (hend : E.cur_dst_y = E.resample_dst_y) :
    (∀ s, s < E.resample_src_y → E.Psrc_y_count.getD s 0 = 0)
    ∧ (∀ j, j < E.scan_buf_y.length → E.scan_buf_y.getD j 0 = -1) := by
  subst hE
  have hok0 : (mkEngine src_x src_y dst_x dst_y op lo hi name gf clxa clya fxs fys
      xofs yofs).status = .okay := by
    by_contra hne
    exact (runOps_ne_okay _ ops hne) hok
  have hinv := runOps_inv _ ops
    (mkEngine_inv src_x src_y dst_x dst_y op lo hi name gf clxa clya fxs fys
      xofs yofs hok0) hok
  obtain ⟨h1, h2, h3, h4, h5, h6, h7, h8⟩ := hinv
  have hzero : ∀ s, s < (runOps (mkEngine src_x src_y dst_x dst_y op lo hi name gf
      clxa clya fxs fys xofs yofs) ops).resample_src_y →
      (runOps (mkEngine src_x src_y dst_x dst_y op lo hi name gf clxa clya fxs fys
        xofs yofs) ops).Psrc_y_count.getD s 0 = 0 := by
    intro s hs
    rw [h4 s hs, hend]
    simp
  refine ⟨hzero, ?_⟩
  intro j hj
  rcases h5 j hj with hfree | ⟨hge, hlt, hpos⟩
  · exact hfree
  · exfalso
    rw [hzero _ hlt] at hpos
    omega

/-- Witness for C5: the 1-by-1 box engine after one put and one get. -/
theorem refcounts_zero_at_end_witness :
    (runOps engBox11 [.put [7] true, .get]).Psrc_y_count.getD 0 0 = 0
      ∧ (runOps engBox11 [.put [7] true, .get]).scan_buf_y.getD 3 0 = -1 :=
  ⟨(refcounts_zero_at_end 1 1 1 1 .clamp 0 0 (some "box") ratFilters none none
      1 1 0 0 [.put [7] true, .get] (runOps engBox11 [.put [7] true, .get]) rfl
      (by decide) (by decide)).1 0 (by decide),
   (refcounts_zero_at_end 1 1 1 1 .clamp 0 0 (some "box") ratFilters none none
      1 1 0 0 [.put [7] true, .get] (runOps engBox11 [.put [7] true, .get]) rfl
      (by decide) (by decide)).2 3 (by decide)⟩

/-! ## Claim C6: a constant image is preserved -/

lemma getD_mem {α : Type} (l : List α) (i : ℕ) (d : α) (h : i < l.length) :
    l.getD i d ∈ l := by
  induction l generalizing i with
  | nil => simp at h
  | cons a rest ih =>
    cases i with
    | zero => exact List.mem_cons_self _ _
    | succ i => exact List.mem_cons_of_mem _ (ih i (by simpa using h))

lemma buildLists_length {g : ℕ → Option Contrib_List} :
    ∀ {l : List ℕ} {cls : List Contrib_List}, buildLists g l = some cls →
      cls.length = l.length := by
  intro l
  induction l with
  | nil =>
    intro cls h
    simp only [buildLists, Option.some.injEq] at h
    subst h
    rfl
  | cons i rest ih =>
    intro cls h
    simp only [buildLists] at h
    cases hg : g i with
    | none => rw [hg] at h; exact absurd h (by simp)
    | some c0 =>
      cases hr : buildLists g rest with
      | none => rw [hg, hr] at h; exact absurd h (by simp)
      | some cs =>
        rw [hg, hr] at h
        simp only [Option.some.injEq] at h
        subst h
        simp [ih hr]

lemma make_clist_length {f : ℚ → ℚ} {src_x dst_x : ℤ} {op : Boundary_Op}
    {supp fscale ofs : ℚ} {cls : List Contrib_List}
    (h : make_clist f src_x dst_x op supp fscale ofs = some cls) :
    cls.length = dst_x.toNat := by
  unfold make_clist at h
  split at h
  · exact absurd h (by simp)
  · rw [buildLists_length h, List.length_range]

lemma addResidual_length (l : List Contrib) (k : ℕ) (d : ℚ) :
    (addResidual l k d).length = l.length := by
  induction l generalizing k with
  | nil => rfl
  | cons c rest ih =>
    cases k with
    | zero => rfl
    | succ k => simp [addResidual, ih k]

lemma contribListFor_ne_nil {f : ℚ → ℚ} {src_x dst_x : ℤ} {op : Boundary_Op}
    {supp fscale ofs : ℚ} {i : ℕ} {cl : Contrib_List}
    (h : contribListFor f src_x dst_x op supp fscale ofs i = some cl) :
    cl.p ≠ [] := by
  unfold contribListFor at h
  split at h
  · exact absurd h (by simp)
  · rename_i hcond
    push_neg at hcond
    simp only [Option.some.injEq] at h
    subst h
    have hlen : (clistEntries src_x op
        (survivorsAt f src_x dst_x supp fscale ofs i)).length
        = (survivorsAt f src_x dst_x supp fscale ofs i).length := by
      unfold clistEntries
      split
      · rw [addResidual_length, List.length_map]
      · rw [List.length_map]
    intro hnil
    have : (clistEntries src_x op
        (survivorsAt f src_x dst_x supp fscale ofs i)).length = 0 := by
      rw [show (Contrib_List.mk (clistEntries src_x op
        (survivorsAt f src_x dst_x supp fscale ofs i))).p
        = clistEntries src_x op (survivorsAt f src_x dst_x supp fscale ofs i)
        from rfl] at hnil
      rw [hnil]
      rfl
    rw [hlen] at this
    exact hcond.2 this

lemma mkEngine_gen_form (src_x src_y dst_x dst_y : ℕ) (op : Boundary_Op)
    (lo hi : ℚ) (name : Option String) (gf : List (String × (ℚ → ℚ) × ℚ))
    (fxs fys xofs yofs : ℚ) :
    (mkEngine src_x src_y dst_x dst_y op lo hi name gf none none fxs fys xofs
        yofs).status ≠ .okay
    ∨ ∃ f supp clx cly,
        make_clist f (src_x : ℤ) (dst_x : ℤ) op supp fxs xofs = some clx
        ∧ make_clist f (src_y : ℤ) (dst_y : ℤ) op supp fys yofs = some cly
        ∧ mkEngine src_x src_y dst_x dst_y op lo hi name gf none none fxs fys
            xofs yofs
          = mkEngineFinish (mkEngineBase src_x src_y dst_x dst_y op lo hi)
              clx cly false false := by
  unfold mkEngine
  split
  · left; exact fun hc => Status.noConfusion hc
  · rename_i fr hfr
    dsimp only
    split
    · left; exact fun hc => Status.noConfusion hc
    · rename_i clx hclx
      split
      · left; exact fun hc => Status.noConfusion hc
      · rename_i cly hcly
        right
        exact ⟨fr.2.1, fr.2.2, clx, cly, hclx, hcly, rfl⟩

lemma mkEngine_statics (src_x src_y dst_x dst_y : ℕ) (op : Boundary_Op)
    (lo hi : ℚ) (name : Option String) (gf : List (String × (ℚ → ℚ) × ℚ))
    (fxs fys xofs yofs : ℚ)
    (hsx : 0 < src_x) (hsy : 0 < src_y)
    (hok : (mkEngine src_x src_y dst_x dst_y op lo hi name gf none none fxs fys
      xofs yofs).status = .okay) :
    EngineStatics (mkEngine src_x src_y dst_x dst_y op lo hi name gf none none
      fxs fys xofs yofs) := by
  rcases mkEngine_gen_form src_x src_y dst_x dst_y op lo hi name gf fxs fys xofs
      yofs with hbad | ⟨f, supp, clx, cly, hclx, hcly, hform⟩
  · exact absurd hok hbad
  · rw [hform]
    have hlx : clx.length = dst_x := by
      rw [make_clist_length hclx, Int.toNat_natCast]
    have hly : cly.length = dst_y := by
      rw [make_clist_length hcly, Int.toNat_natCast]
    refine ⟨?_, ?_, ?_, ?_, mkEngineFinish_intermediate _ _ _ _ _⟩
    · intro i hi
      have hi2 : i < dst_x := hi
      show ((clx.getD i default).p.map (fun x => x.weight)).sum = 1
      have hmem : clx.getD i default ∈ clx := getD_mem _ _ _ (by omega)
      rcases make_clist_mem hclx hmem with ⟨i', hi'⟩
      exact contribListFor_weight_sum hi'
    · intro i hi x hx
      have hi2 : i < dst_x := hi
      show x.pixel < src_x
      have hmem : clx.getD i default ∈ clx := getD_mem _ _ _ (by omega)
      rcases make_clist_mem hclx hmem with ⟨i', hi'⟩
      have := contribListFor_pixel_lt (by exact_mod_cast hsx) hi' x hx
      exact_mod_cast this
    · intro d hd
      have hd2 : d < dst_y := hd
      show ((cly.getD d default).p.map (fun x => x.weight)).sum = 1
      have hmem : cly.getD d default ∈ cly := getD_mem _ _ _ (by omega)
      rcases make_clist_mem hcly hmem with ⟨d', hd'⟩
      exact contribListFor_weight_sum hd'
    · intro d hd
      have hd2 : d < dst_y := hd
      show (cly.getD d default).p ≠ []
      have hmem : cly.getD d default ∈ cly := getD_mem _ _ _ (by omega)
      rcases make_clist_mem hcly hmem with ⟨d', hd'⟩
      exact contribListFor_ne_nil hd'

lemma range_map_const {α : Type} (n : ℕ) (f : ℕ → α) (a : α)
    (h : ∀ i, i < n → f i = a) :
    (List.range n).map f = List.replicate n a := by
  rw [List.eq_replicate_iff]
  refine ⟨by rw [List.length_map, List.length_range], ?_⟩
  intro b hb
  rcases List.mem_map.mp hb with ⟨i, hi, hfi⟩
  rw [← hfi]
  exact h i (List.mem_range.mp hi)

lemma take_replicate_self {α : Type} (n : ℕ) (a : α) :
    (List.replicate n a).take n = List.replicate n a := by
  induction n with
  | zero => rfl
  | succ n ih => simpa [List.replicate_succ] using ih

lemma foldl_const_row (srcx : ℕ) (c : ℚ) :
    ∀ (p : List Contrib) (t : ℚ), (∀ x ∈ p, x.pixel < srcx) →
      p.foldl (fun total x =>
          total + (List.replicate srcx c).getD x.pixel 0 * x.weight) t
        = t + c * (p.map (fun x => x.weight)).sum := by
  intro p
  induction p with
  | nil => intro t _; simp
  | cons x p' ih =>
    intro t hall
    rw [List.foldl_cons, ih _ (fun y hy => hall y (by simp [hy]))]
    rw [getD_replicate _ _ _ _ (hall x (by simp))]
    simp only [List.map_cons, List.sum_cons]
    ring

lemma resample_x_const (clist : List Contrib_List) (dst_x srcx : ℕ) (c : ℚ)
    (hsum : ∀ i, i < dst_x →
      ((clist.getD i default).p.map (fun x => x.weight)).sum = 1)
    (hpix : ∀ i, i < dst_x → ∀ x ∈ (clist.getD i default).p, x.pixel < srcx) :
    resample_x clist dst_x (List.replicate srcx c) = List.replicate dst_x c := by
  unfold resample_x
  apply range_map_const
  intro i hi
  rw [foldl_const_row srcx c _ 0 (hpix i hi), hsum i hi]
  ring

lemma scale_y_mov_const (inter : ℕ) (c w : ℚ) :
    scale_y_mov (List.replicate inter c) w inter = List.replicate inter (c * w) := by
  unfold scale_y_mov
  apply range_map_const
  intro i hi
  rw [getD_replicate _ _ _ _ hi]

lemma scale_y_add_const (inter : ℕ) (a c w : ℚ) :
    scale_y_add (List.replicate inter a) (List.replicate inter c) w inter
      = List.replicate inter (a + c * w) := by
  unfold scale_y_add
  apply range_map_const
  intro i hi
  rw [getD_replicate _ _ _ _ hi, getD_replicate _ _ _ _ hi]

lemma multL_pos_of_mem {s : ℕ} {x : Contrib} {l : List Contrib}
    (hx : x ∈ l) (hp : x.pixel = s) : 0 < multL s l := by
  unfold multL
  rw [List.length_pos]
  intro hnil
  have : x ∈ l.filter (fun c => c.pixel = s) :=
    List.mem_filter.mpr ⟨hx, by simp [hp]⟩
  rw [hnil] at this
  cases this

/-- The slot found for a contributor whose row is present: it exists, is in range,
and carries the contributor's tag. -/
lemma slotOf_present {tags : List ℤ} {flags : List Bool} {c : Contrib} {srcy : ℕ}
    (hcov : FlagsCovered flags tags srcy)
    (hs : c.pixel < srcy)
    (hfl : flags.getD c.pixel false = true) :
    slotOf tags c < tags.length
      ∧ tags.getD (slotOf tags c) 0 = (c.pixel : ℤ) := by
  rcases hcov c.pixel hs hfl with ⟨j, hj, htag⟩
  cases hjf : findFirstIdx (fun t => t = (c.pixel : ℤ)) tags with
  | none => exact absurd htag (findFirstIdx_none_tag hjf j hj)
  | some j0 =>
    rw [slotOf_some hjf]
    exact findFirstIdx_some_tag hjf

lemma resample_y_step_Ptmp (scan_l : List (Option (List ℚ))) (inter : ℕ)
    (c : Contrib) (first : Bool) (st : YState) :
    (resample_y_step scan_l inter c first st).Ptmp
      = resample_y_accum scan_l inter c first st := by
  unfold resample_y_step
  split
  · rfl
  · rfl

lemma resample_y_step_flags_ne (scan_l : List (Option (List ℚ))) (inter : ℕ)
    (c : Contrib) (first : Bool) (st : YState) (q : ℕ) (hq : q ≠ c.pixel) :
    (resample_y_step scan_l inter c first st).flags.getD q false
      = st.flags.getD q false := by
  unfold resample_y_step
  split
  · exact getD_set_ne _ _ _ _ _ (fun hc => hq hc.symm)
  · rfl

lemma resample_y_step_flags_of_cnt_ne (scan_l : List (Option (List ℚ)))
    (inter : ℕ) (c : Contrib) (first : Bool) (st : YState)
    (h : st.counts.getD c.pixel 0 - 1 ≠ 0) :
    (resample_y_step scan_l inter c first st).flags = st.flags := by
  unfold resample_y_step
  rw [if_neg h]

lemma resample_y_loop_const (scan_l : List (Option (List ℚ))) (inter srcy : ℕ)
    (c : ℚ) (rest : ℕ → ℤ) (hrest : ∀ s, s < srcy → 0 ≤ rest s) :
    ∀ (l : List Contrib) (st : YState) (a : ℚ),
      st.counts.length = srcy →
      (∀ x ∈ l, x.pixel < srcy) →
      (∀ s, s < srcy → st.counts.getD s 0 = rest s + (multL s l : ℤ)) →
      TagsLive st.tags st.counts srcy →
      TagsDistinct st.tags →
      FlagsCovered st.flags st.tags srcy →
      (∀ x ∈ l, st.flags.getD x.pixel false = true) →
      ConstSlots scan_l st.tags inter c →
      st.Ptmp = List.replicate inter a →
      (resample_y_loop scan_l inter l false st).Ptmp
        = List.replicate inter (a + c * (l.map (fun x => x.weight)).sum) := by
  intro l
  induction l with
  | nil =>
    intro st a _ _ _ _ _ _ _ _ hPtmp
    show st.Ptmp = _
    rw [hPtmp]
    simp
  | cons x l' ih =>
    intro st a hlen hall hA hlive hdist hcov hflags hconst hPtmp
    have hpx : x.pixel < srcy := hall x (by simp)
    obtain ⟨hslt, hstag⟩ := slotOf_present hcov hpx (hflags x (by simp))
    have hrowc : ((scan_l.getD (slotOf st.tags x) none).getD [])
        = List.replicate inter c := by
      rw [hconst (slotOf st.tags x) hslt (by rw [hstag]; omega)]
      rfl
    have hstep_tmp : (resample_y_step scan_l inter x false st).Ptmp
        = List.replicate inter (a + c * x.weight) := by
      rw [resample_y_step_Ptmp]
      show scale_y_add st.Ptmp ((scan_l.getD (slotOf st.tags x) none).getD [])
        x.weight inter = _
      rw [hPtmp, hrowc, scale_y_add_const]
    rcases resample_y_step_inv scan_l inter srcy rest x l' false st hrest hlen hpx
      hA hlive hdist hcov with ⟨h1, h2, h3, h4, h5, h6, h7, h8⟩
    have hflagsr : ∀ y ∈ l', (resample_y_step scan_l inter x false st).flags.getD
        y.pixel false = true := by
      intro y hy
      by_cases hyp : y.pixel = x.pixel
      · have hposm : 0 < multL x.pixel l' := multL_pos_of_mem hy hyp
        have hcnt : st.counts.getD x.pixel 0 - 1
            = rest x.pixel + (multL x.pixel l' : ℤ) := by
          rw [hA x.pixel hpx, multL_cons_self _ rfl]
          push_cast
          ring
        have hne : st.counts.getD x.pixel 0 - 1 ≠ 0 := by
          have := hrest x.pixel hpx
          omega
        rw [resample_y_step_flags_of_cnt_ne _ _ _ _ _ hne, hyp]
        exact hflags x (by simp)
      · rw [resample_y_step_flags_ne _ _ _ _ _ _ hyp]
        exact hflags y (by simp [hy])
    have hconstr : ConstSlots scan_l
        (resample_y_step scan_l inter x false st).tags inter c := by
      intro j hj hne
      rw [h3] at hj
      rcases h8 j with hm | hm
      · rw [hm] at hne
        exact hconst j hj hne
      · exact absurd hm hne
    show (resample_y_loop scan_l inter l' false
      (resample_y_step scan_l inter x false st)).Ptmp = _
    rw [ih (resample_y_step scan_l inter x false st) (a + c * x.weight) h1
      (fun y hy => hall y (by simp [hy])) h4 h5 h6 h7 hflagsr hconstr hstep_tmp]
    congr 1
    simp only [List.map_cons, List.sum_cons]
    ring

lemma resample_y_state_const (e : Engine) (c : ℚ)
    (hinv : EngineInv e) (hci : ConstInv c e)
    (hne : e.cur_dst_y ≠ e.resample_dst_y)
    (hall : ∀ x ∈ (e.Pclist_y.getD e.cur_dst_y default).p,
      e.Psrc_y_flag.getD x.pixel false = true)
    (hsum : ((e.Pclist_y.getD e.cur_dst_y default).p.map (fun x => x.weight)).sum = 1)
    (hnnil : (e.Pclist_y.getD e.cur_dst_y default).p ≠ []) :
    (resample_y_state e).Ptmp = List.replicate e.intermediate_x c := by
  obtain ⟨h1, h2, h3, h4, h5, h6, h7, h8⟩ := hinv
  obtain ⟨hll, hcs⟩ := hci
  have hcurlt : e.cur_dst_y < e.resample_dst_y := lt_of_le_of_ne h3 hne
  cases hl : (e.Pclist_y.getD e.cur_dst_y default).p with
  | nil => exact absurd hl hnnil
  | cons x l' =>
    rw [hl] at hall hsum
    have hallpix : ∀ y ∈ x :: l', y.pixel < e.resample_src_y := by
      intro y hy
      have hlt := lt_length_of_getD_true (hall y hy)
      omega
    have hrestnn : ∀ s, s < e.resample_src_y →
        0 ≤ ∑ d ∈ Finset.Ico (e.cur_dst_y + 1) e.resample_dst_y,
          (multY e.Pclist_y d s : ℤ) :=
      fun s _ => Finset.sum_nonneg (fun d _ => Int.natCast_nonneg _)
    have hAsplit : ∀ s, s < e.resample_src_y → e.Psrc_y_count.getD s 0
        = (∑ d ∈ Finset.Ico (e.cur_dst_y + 1) e.resample_dst_y,
            (multY e.Pclist_y d s : ℤ))
          + (multL s (x :: l') : ℤ) := by
      intro s hs
      rw [h4 s hs, Finset.sum_eq_sum_Ico_succ_bot hcurlt, add_comm]
      rw [show multY e.Pclist_y e.cur_dst_y s = multL s (x :: l') from by
        unfold multY
        rw [hl]]
    have hpx : x.pixel < e.resample_src_y := hallpix x (by simp)
    obtain ⟨hslt, hstag⟩ := slotOf_present h8 hpx (hall x (by simp))
    have hrowc : ((e.scan_buf_l.getD (slotOf e.scan_buf_y x) none).getD [])
        = List.replicate e.intermediate_x c := by
      rw [hcs (slotOf e.scan_buf_y x) hslt (by rw [hstag]; omega)]
      rfl
    rcases resample_y_step_inv e.scan_buf_l e.intermediate_x e.resample_src_y
      (fun s => ∑ d ∈ Finset.Ico (e.cur_dst_y + 1) e.resample_dst_y,
        (multY e.Pclist_y d s : ℤ))
      x l' true
      ⟨(if e.delay_x_resample then e.Ptmp_buf else e.Pdst_buf),
       e.Psrc_y_count, e.Psrc_y_flag, e.scan_buf_y⟩
      hrestnn h1 hpx hAsplit h5 h6 h8 with ⟨g1, g2, g3, g4, g5, g6, g7, g8⟩
    have hstep_tmp : (resample_y_step e.scan_buf_l e.intermediate_x x true
        ⟨(if e.delay_x_resample then e.Ptmp_buf else e.Pdst_buf),
         e.Psrc_y_count, e.Psrc_y_flag, e.scan_buf_y⟩).Ptmp
        = List.replicate e.intermediate_x (c * x.weight) := by
      rw [resample_y_step_Ptmp]
      show scale_y_mov ((e.scan_buf_l.getD (slotOf e.scan_buf_y x) none).getD [])
        x.weight e.intermediate_x = _
      rw [hrowc, scale_y_mov_const]
    have hflagsr : ∀ y ∈ l', (resample_y_step e.scan_buf_l e.intermediate_x x true
        ⟨(if e.delay_x_resample then e.Ptmp_buf else e.Pdst_buf),
         e.Psrc_y_count, e.Psrc_y_flag, e.scan_buf_y⟩).flags.getD
        y.pixel false = true := by
      intro y hy
      by_cases hyp : y.pixel = x.pixel
      · have hposm : 0 < multL x.pixel l' := multL_pos_of_mem hy hyp
        have hcnt : e.Psrc_y_count.getD x.pixel 0 - 1
            = (∑ d ∈ Finset.Ico (e.cur_dst_y + 1) e.resample_dst_y,
                (multY e.Pclist_y d x.pixel : ℤ))
              + (multL x.pixel l' : ℤ) := by
          rw [hAsplit x.pixel hpx, multL_cons_self _ rfl]
          push_cast
          ring
        have hnez : e.Psrc_y_count.getD x.pixel 0 - 1 ≠ 0 := by
          have := hrestnn x.pixel hpx
          omega
        rw [resample_y_step_flags_of_cnt_ne _ _ _ _ _ hnez, hyp]
        exact hall x (by simp)
      · rw [resample_y_step_flags_ne _ _ _ _ _ _ hyp]
        exact hall y (by simp [hy])
    have hconstr : ConstSlots e.scan_buf_l
        (resample_y_step e.scan_buf_l e.intermediate_x x true
          ⟨(if e.delay_x_resample then e.Ptmp_buf else e.Pdst_buf),
           e.Psrc_y_count, e.Psrc_y_flag, e.scan_buf_y⟩).tags
        e.intermediate_x c := by
      intro j hj hnet
      rw [g3] at hj
      rcases g8 j with hm | hm
      · rw [hm] at hnet
        exact hcs j hj hnet
      · exact absurd hm hnet
    have hres : resample_y_state e
        = resample_y_loop e.scan_buf_l e.intermediate_x l' false
            (resample_y_step e.scan_buf_l e.intermediate_x x true
              ⟨(if e.delay_x_resample then e.Ptmp_buf else e.Pdst_buf),
               e.Psrc_y_count, e.Psrc_y_flag, e.scan_buf_y⟩) := by
      unfold resample_y_state
      rw [hl]
      simp only [resample_y_loop]
    rw [hres]
    rw [resample_y_loop_const e.scan_buf_l e.intermediate_x e.resample_src_y c _
      hrestnn l' _ (c * x.weight) g1
      (fun y hy => hallpix y (by simp [hy])) g4 g5 g6 g7 hflagsr hconstr hstep_tmp]
    have hsum2 : x.weight + (l'.map (fun y => y.weight)).sum = 1 := by
      simpa using hsum
    rw [← mul_add, hsum2, mul_one]

lemma stepOp_fields (e : Engine) (op : Op) :
    (stepOp e op).Pclist_x = e.Pclist_x
    ∧ (stepOp e op).Pclist_y = e.Pclist_y
    ∧ (stepOp e op).resample_src_x = e.resample_src_x
    ∧ (stepOp e op).resample_src_y = e.resample_src_y
    ∧ (stepOp e op).resample_dst_x = e.resample_dst_x
    ∧ (stepOp e op).resample_dst_y = e.resample_dst_y
    ∧ (stepOp e op).delay_x_resample = e.delay_x_resample
    ∧ (stepOp e op).intermediate_x = e.intermediate_x
    ∧ (stepOp e op).lo = e.lo
    ∧ (stepOp e op).hi = e.hi := by
  cases op with
  | put row ok =>
    simp only [stepOp]
    unfold put_line
    split
    · exact ⟨rfl, rfl, rfl, rfl, rfl, rfl, rfl, rfl, rfl, rfl⟩
    · split
      · exact ⟨rfl, rfl, rfl, rfl, rfl, rfl, rfl, rfl, rfl, rfl⟩
      · split
        · exact ⟨rfl, rfl, rfl, rfl, rfl, rfl, rfl, rfl, rfl, rfl⟩
        · split
          · split
            · exact ⟨rfl, rfl, rfl, rfl, rfl, rfl, rfl, rfl, rfl, rfl⟩
            · exact ⟨rfl, rfl, rfl, rfl, rfl, rfl, rfl, rfl, rfl, rfl⟩
          · exact ⟨rfl, rfl, rfl, rfl, rfl, rfl, rfl, rfl, rfl, rfl⟩
  | get =>
    simp only [stepOp]
    unfold get_line
    split
    · exact ⟨rfl, rfl, rfl, rfl, rfl, rfl, rfl, rfl, rfl, rfl⟩
    · split
      · exact ⟨rfl, rfl, rfl, rfl, rfl, rfl, rfl, rfl, rfl, rfl⟩
      · exact ⟨rfl, rfl, rfl, rfl, rfl, rfl, rfl, rfl, rfl, rfl⟩
  | restart =>
    simp only [stepOp]
    unfold restart
    split
    · exact ⟨rfl, rfl, rfl, rfl, rfl, rfl, rfl, rfl, rfl, rfl⟩
    · exact ⟨rfl, rfl, rfl, rfl, rfl, rfl, rfl, rfl, rfl, rfl⟩

lemma runOps_fields (e : Engine) (ops : List Op) :
    (runOps e ops).resample_src_x = e.resample_src_x
    ∧ (runOps e ops).resample_dst_x = e.resample_dst_x
    ∧ (runOps e ops).lo = e.lo
    ∧ (runOps e ops).hi = e.hi := by
  induction ops generalizing e with
  | nil => exact ⟨rfl, rfl, rfl, rfl⟩
  | cons op rest ih =>
    obtain ⟨_, _, f3, _, f5, _, _, _, f9, f10⟩ := stepOp_fields e op
    obtain ⟨g3, g5, g9, g10⟩ := ih (stepOp e op)
    exact ⟨g3.trans f3, g5.trans f5, g9.trans f9, g10.trans f10⟩

lemma stepOp_statics (e : Engine) (op : Op) (h : EngineStatics e) :
    EngineStatics (stepOp e op) := by
  obtain ⟨f1, f2, _, _, f5, f6, f7, f8, _, _⟩ := stepOp_fields e op
  obtain ⟨_, _, f3, _, _, _, _, _, _, _⟩ := stepOp_fields e op
  obtain ⟨s1, s2, s3, s4, s5⟩ := h
  refine ⟨?_, ?_, ?_, ?_, ?_⟩
  · intro i hi
    rw [f1]
    exact s1 i (by rw [f5] at hi; exact hi)
  · intro i hi x hx
    rw [f3]
    rw [f1] at hx
    exact s2 i (by rw [f5] at hi; exact hi) x hx
  · intro d hd
    rw [f2]
    exact s3 d (by rw [f6] at hd; exact hd)
  · intro d hd
    rw [f2]
    exact s4 d (by rw [f6] at hd; exact hd)
  · rw [f8, f7, f3, f5]
    exact s5

lemma restart_constinv (e : Engine) (c : ℚ) (hci : ConstInv c e) :
    ConstInv c (restart e) := by
  unfold restart
  split
  · exact hci
  · refine ⟨?_, ?_⟩
    · show (List.replicate MAX_SCAN_BUF_SIZE (none : Option (List ℚ))).length
        = (List.replicate MAX_SCAN_BUF_SIZE (-1 : ℤ)).length
      rw [List.length_replicate, List.length_replicate]
    · intro j hj hne
      have hj2 : j < (List.replicate MAX_SCAN_BUF_SIZE (-1 : ℤ)).length := hj
      rw [List.length_replicate] at hj2
      have hne2 : (List.replicate MAX_SCAN_BUF_SIZE (-1 : ℤ)).getD j 0 ≠ -1 := hne
      rw [getD_replicate _ _ _ _ hj2] at hne2
      exact absurd rfl hne2

lemma put_line_constinv (e : Engine) (row : List ℚ) (ok : Bool) (c : ℚ)
    (hstat : EngineStatics e) (hci : ConstInv c e)
    (hok : (put_line e row ok).1.status = .okay)
    (hrowc : row = List.replicate e.resample_src_x c) :
    ConstInv c (put_line e row ok).1 := by
  rcases put_line_shape e row ok with h | h | h | ⟨i, hfind, hcur, hcnt, h⟩
  · rw [h]; exact hci
  · rw [h]; exact hci
  · exact absurd hok h
  · obtain ⟨hll, hcs⟩ := hci
    obtain ⟨s1, s2, s3, s4, s5⟩ := hstat
    have hilen : i < e.scan_buf_y.length :=
      (findFirstIdx_spec (fun t => t = -1) (0 : ℤ) e.scan_buf_y i hfind).1
    have hbufc : (if e.delay_x_resample then row.take e.intermediate_x
        else resample_x e.Pclist_x e.resample_dst_x row)
        = List.replicate e.intermediate_x c := by
      by_cases hd : e.delay_x_resample
      · rw [if_pos hd, hrowc, show e.intermediate_x = e.resample_src_x from by
          rw [s5, if_pos hd]]
        exact take_replicate_self _ _
      · rw [if_neg hd, hrowc, show e.intermediate_x = e.resample_dst_x from by
          rw [s5, if_neg hd]]
        exact resample_x_const e.Pclist_x e.resample_dst_x e.resample_src_x c s1 s2
    have hsl : (put_line_store (put_line_mark e i) i row).1.scan_buf_l
        = e.scan_buf_l.set i (some (if e.delay_x_resample
            then row.take e.intermediate_x
            else resample_x e.Pclist_x e.resample_dst_x row)) := rfl
    have hsy : (put_line_store (put_line_mark e i) i row).1.scan_buf_y
        = e.scan_buf_y.set i ((e.cur_src_y : ℤ)) := rfl
    have hix : (put_line_store (put_line_mark e i) i row).1.intermediate_x
        = e.intermediate_x := rfl
    rw [h]
    refine ⟨?_, ?_⟩
    · rw [hsl, hsy, List.length_set, List.length_set]
      exact hll
    · rw [hsl, hsy, hix]
      intro j hj hne
      rw [List.length_set] at hj
      by_cases hji : i = j
      · subst hji
        rw [getD_set_self e.scan_buf_l i _ none (by rw [hll]; exact hilen)]
        exact congrArg some hbufc
      · rw [getD_set_ne e.scan_buf_l i j _ none hji]
        rw [getD_set_ne e.scan_buf_y i j _ 0 hji] at hne
        exact hcs j hj hne

lemma resample_y_state_tags_mono (e : Engine) (hinv : EngineInv e)
    (hne2 : e.cur_dst_y ≠ e.resample_dst_y)
    (hall : ∀ c ∈ (e.Pclist_y.getD e.cur_dst_y default).p,
      e.Psrc_y_flag.getD c.pixel false = true) :
    (resample_y_state e).tags.length = e.scan_buf_y.length
    ∧ ∀ j, (resample_y_state e).tags.getD j 0 = e.scan_buf_y.getD j 0
        ∨ (resample_y_state e).tags.getD j 0 = -1 := by
  obtain ⟨h1, h2, h3, h4, h5, h6, h7, h8⟩ := hinv
  have hcurlt : e.cur_dst_y < e.resample_dst_y := lt_of_le_of_ne h3 hne2
  have hallpix : ∀ c ∈ (e.Pclist_y.getD e.cur_dst_y default).p,
      c.pixel < e.resample_src_y := by
    intro c hc
    have hlt := lt_length_of_getD_true (hall c hc)
    omega
  have hrestnn : ∀ s, s < e.resample_src_y →
      0 ≤ ∑ d ∈ Finset.Ico (e.cur_dst_y + 1) e.resample_dst_y,
        (multY e.Pclist_y d s : ℤ) :=
    fun s _ => Finset.sum_nonneg (fun d _ => Int.natCast_nonneg _)
  have hAsplit : ∀ s, s < e.resample_src_y → e.Psrc_y_count.getD s 0
      = (∑ d ∈ Finset.Ico (e.cur_dst_y + 1) e.resample_dst_y,
          (multY e.Pclist_y d s : ℤ))
        + (multL s (e.Pclist_y.getD e.cur_dst_y default).p : ℤ) := by
    intro s hs
    rw [h4 s hs, Finset.sum_eq_sum_Ico_succ_bot hcurlt]
    rw [add_comm]
    rfl
  rcases resample_y_loop_inv e.scan_buf_l e.intermediate_x e.resample_src_y
      (fun s => ∑ d ∈ Finset.Ico (e.cur_dst_y + 1) e.resample_dst_y,
        (multY e.Pclist_y d s : ℤ))
      hrestnn (e.Pclist_y.getD e.cur_dst_y default).p true
      ⟨(if e.delay_x_resample then e.Ptmp_buf else e.Pdst_buf),
       e.Psrc_y_count, e.Psrc_y_flag, e.scan_buf_y⟩
      h1 hallpix hAsplit h5 h6 h8 with ⟨g1, g2, g3, g4, g5, g6, g7, g8⟩
  exact ⟨g3, g8⟩

lemma get_line_constinv (e : Engine) (c : ℚ) (hinv : EngineInv e)
    (hci : ConstInv c e) : ConstInv c (get_line e).1 := by
  unfold get_line
  split
  · exact hci
  · split
    · exact hci
    · rename_i hne2 hany
      have hanyf : ((e.Pclist_y.getD e.cur_dst_y default).p.any
          (fun x => ! e.Psrc_y_flag.getD x.pixel false)) = false := by
        revert hany
        cases ((e.Pclist_y.getD e.cur_dst_y default).p.any
            (fun x => ! e.Psrc_y_flag.getD x.pixel false)) <;> simp
      have hall := all_present_of_any_eq_false hanyf
      obtain ⟨hlen, hmono⟩ := resample_y_state_tags_mono e hinv hne2 hall
      obtain ⟨hll, hcs⟩ := hci
      refine ⟨?_, ?_⟩
      · show e.scan_buf_l.length = (resample_y_state e).tags.length
        rw [hlen]
        exact hll
      · intro j hj hne
        show e.scan_buf_l.getD j none = some (List.replicate e.intermediate_x c)
        have hj2 : j < e.scan_buf_y.length := by
          rw [← hlen]
          exact hj
        rcases hmono j with hm | hm
        · rw [show (({ resample_y e with
              cur_dst_y := (resample_y e).cur_dst_y + 1 } : Engine)).scan_buf_y.getD
                j 0 = (resample_y_state e).tags.getD j 0 from rfl, hm] at hne
          exact hcs j hj2 hne
        · rw [show (({ resample_y e with
              cur_dst_y := (resample_y e).cur_dst_y + 1 } : Engine)).scan_buf_y.getD
                j 0 = (resample_y_state e).tags.getD j 0 from rfl, hm] at hne
          exact absurd rfl hne

lemma stepOpC (e : Engine) (op : Op) (c : ℚ) (hg : GoodC c e)
    (hok : (stepOp e op).status = .okay)
    (hconst : ∀ r k, op = Op.put r k → r = List.replicate e.resample_src_x c) :
    GoodC c (stepOp e op) := by
  obtain ⟨hinv, hstat, hci⟩ := hg
  refine ⟨stepOp_inv e op hinv hok, stepOp_statics e op hstat, ?_⟩
  cases op with
  | put r k => exact put_line_constinv e r k c hstat hci hok (hconst r k rfl)
  | get => exact get_line_constinv e c hinv hci
  | restart => exact restart_constinv e c hci

lemma runOpsC (src_x : ℕ) (c : ℚ) (e : Engine) (ops : List Op)
    (hg : GoodC c e) (hsrc : e.resample_src_x = src_x)
    (hok : (runOps e ops).status = .okay)
    (hconst : ∀ o ∈ ops, ∀ r k, o = Op.put r k → r = List.replicate src_x c) :
    GoodC c (runOps e ops) := by
  induction ops generalizing e with
  | nil => exact hg
  | cons op rest ih =>
    by_cases hst : (stepOp e op).status = .okay
    · exact ih (stepOp e op)
        (stepOpC e op c hg hst (by
          intro r k hop
          rw [hsrc]
          exact hconst op (by simp) r k hop))
        (((stepOp_fields e op).2.2.1).trans hsrc) hok
        (fun o ho r k hop => hconst o (by simp [ho]) r k hop)
    · exact absurd hok (runOps_ne_okay (stepOp e op) rest hst)

lemma mkEngine_constinv (src_x src_y dst_x dst_y : ℕ) (op : Boundary_Op)
    (lo hi : ℚ) (name : Option String) (gf : List (String × (ℚ → ℚ) × ℚ))
    (clxa clya : Option (List Contrib_List)) (fxs fys xofs yofs : ℚ) (c : ℚ)
    (hok : (mkEngine src_x src_y dst_x dst_y op lo hi name gf clxa clya fxs fys
      xofs yofs).status = .okay) :
    ConstInv c (mkEngine src_x src_y dst_x dst_y op lo hi name gf clxa clya fxs
      fys xofs yofs) := by
  rcases mkEngine_cases src_x src_y dst_x dst_y op lo hi name gf clxa clya fxs fys
      xofs yofs with hbad | ⟨clx, cly, xf, yf, hform⟩
  · exact absurd hok hbad
  · rw [hform]
    refine ⟨?_, ?_⟩
    · show (List.replicate MAX_SCAN_BUF_SIZE (none : Option (List ℚ))).length
        = (List.replicate MAX_SCAN_BUF_SIZE (-1 : ℤ)).length
      rw [List.length_replicate, List.length_replicate]
    · intro j hj hne
      have hj2 : j < (List.replicate MAX_SCAN_BUF_SIZE (-1 : ℤ)).length := hj
      rw [List.length_replicate] at hj2
      have hne2 : (List.replicate MAX_SCAN_BUF_SIZE (-1 : ℤ)).getD j 0 ≠ -1 := hne
      rw [getD_replicate _ _ _ _ hj2] at hne2
      exact absurd rfl hne2

lemma mkEngine_fixed_fields (src_x src_y dst_x dst_y : ℕ) (op : Boundary_Op)
    (lo hi : ℚ) (name : Option String) (gf : List (String × (ℚ → ℚ) × ℚ))
    (clxa clya : Option (List Contrib_List)) (fxs fys xofs yofs : ℚ)
    (hok : (mkEngine src_x src_y dst_x dst_y op lo hi name gf clxa clya fxs fys
      xofs yofs).status = .okay) :
    (mkEngine src_x src_y dst_x dst_y op lo hi name gf clxa clya fxs fys xofs
        yofs).resample_src_x = src_x
    ∧ (mkEngine src_x src_y dst_x dst_y op lo hi name gf clxa clya fxs fys xofs
        yofs).resample_dst_x = dst_x
    ∧ (mkEngine src_x src_y dst_x dst_y op lo hi name gf clxa clya fxs fys xofs
        yofs).lo = lo
    ∧ (mkEngine src_x src_y dst_x dst_y op lo hi name gf clxa clya fxs fys xofs
        yofs).hi = hi := by
  rcases mkEngine_cases src_x src_y dst_x dst_y op lo hi name gf clxa clya fxs fys
      xofs yofs with hbad | ⟨clx, cly, xf, yf, hform⟩
  · exact absurd hok hbad
  · rw [hform]
    exact ⟨rfl, rfl, rfl, rfl⟩

lemma resample_y_row_const (e : Engine) (c : ℚ)
    (hinv : EngineInv e) (hstat : EngineStatics e) (hci : ConstInv c e)
    (hne2 : e.cur_dst_y ≠ e.resample_dst_y)
    (hall : ∀ x ∈ (e.Pclist_y.getD e.cur_dst_y default).p,
      e.Psrc_y_flag.getD x.pixel false = true) :
    resample_y_row e = List.replicate e.resample_dst_x c := by
  obtain ⟨s1, s2, s3, s4, s5⟩ := hstat
  have hcurlt : e.cur_dst_y < e.resample_dst_y := lt_of_le_of_ne hinv.hcur hne2
  have hstate := resample_y_state_const e c hinv hci hne2 hall
    (s3 e.cur_dst_y hcurlt) (s4 e.cur_dst_y hcurlt)
  unfold resample_y_row
  by_cases hd : e.delay_x_resample
  · rw [if_pos hd, hstate, show e.intermediate_x = e.resample_src_x from by
      rw [s5, if_pos hd]]
    exact resample_x_const e.Pclist_x e.resample_dst_x e.resample_src_x c s1 s2
  · rw [if_neg hd, hstate, show e.intermediate_x = e.resample_dst_x from by
      rw [s5, if_neg hd]]

lemma get_line_row_const (e : Engine) (c : ℚ) (row : List ℚ)
    (hg : GoodC c e)
    (hclamp : e.lo < e.hi → e.lo ≤ c ∧ c ≤ e.hi)
    (hget : (get_line e).2 = some row) :
    row = List.replicate e.resample_dst_x c := by
  obtain ⟨hinv, hstat, hci⟩ := hg
  unfold get_line at hget
  split at hget
  · exact absurd hget (by simp)
  · split at hget
    · exact absurd hget (by simp)
    · rename_i hne2 hany
      have hanyf : ((e.Pclist_y.getD e.cur_dst_y default).p.any
          (fun x => ! e.Psrc_y_flag.getD x.pixel false)) = false := by
        revert hany
        cases ((e.Pclist_y.getD e.cur_dst_y default).p.any
            (fun x => ! e.Psrc_y_flag.getD x.pixel false)) <;> simp
      have hall := all_present_of_any_eq_false hanyf
      have hrow := resample_y_row_const e c hinv hstat hci hne2 hall
      have hbuf : (resample_y e).Pdst_buf = List.replicate e.resample_dst_x c := by
        show (if e.lo < e.hi then (resample_y_row e).map (clamp_sample e.lo e.hi)
            else resample_y_row e) = _
        by_cases hlh : e.lo < e.hi
        · rw [if_pos hlh, hrow, List.map_replicate]
          obtain ⟨hc1, hc2⟩ := hclamp hlh
          rw [show clamp_sample e.lo e.hi c = c from by
            unfold clamp_sample
            rw [if_neg (not_lt.mpr hc1), if_neg (not_lt.mpr hc2)]]
        · rw [if_neg hlh, hrow]
      have h2 : some (resample_y e).Pdst_buf = some row := hget
      rw [← Option.some.inj h2]
      exact hbuf

/-- Claim C6: an engine built over any filter table, any boundary op and positive
dimensions, fed only constant source rows of value `c`, produces from `get_line` a
destination row every sample of which equals `c` exactly (exact rational
arithmetic), provided no error status was raised and either clamping is disabled
(`lo ≥ hi`) or `c` lies in `[lo, hi]`. -/
theorem constant_image_preserved
    (src_x src_y dst_x dst_y : ℕ) (op : Boundary_Op) (lo hi : ℚ)
    (name : Option String) (gf : List (String × (ℚ → ℚ) × ℚ))
    (fxs fys xofs yofs c : ℚ) (ops : List Op) (E : Engine) (row : List ℚ)
    (hsx : 0 < src_x) (hsy : 0 < src_y)
    (hE : E = runOps (mkEngine src_x src_y dst_x dst_y op lo hi name gf none none
      fxs fys xofs yofs) ops)
    (hconst : ∀ o ∈ ops, ∀ r k, o = Op.put r k → r = List.replicate src_x c)
    (hclamp : lo < hi → lo ≤ c ∧ c ≤ hi)
    (hok : E.status = .okay)
    (hget : (get_line E).2 = some row) :
    row = List.replicate dst_x c := by
  subst hE
  have hok0 : (mkEngine src_x src_y dst_x dst_y op lo hi name gf none none fxs fys
      xofs yofs).status = .okay := by
    by_contra hne
    exact (runOps_ne_okay _ ops hne) hok
  obtain ⟨m1, m2, m3, m4⟩ := mkEngine_fixed_fields src_x src_y dst_x dst_y op lo hi
    name gf none none fxs fys xofs yofs hok0
  have hg0 : GoodC c (mkEngine src_x src_y dst_x dst_y op lo hi name gf none none
      fxs fys xofs yofs) :=
    ⟨mkEngine_inv src_x src_y dst_x dst_y op lo hi name gf none none fxs fys xofs
        yofs hok0,
     mkEngine_statics src_x src_y dst_x dst_y op lo hi name gf fxs fys xofs yofs
        hsx hsy hok0,
     mkEngine_constinv src_x src_y dst_x dst_y op lo hi name gf none none fxs fys
        xofs yofs c hok0⟩
  have hg := runOpsC src_x c _ ops hg0 m1 hok hconst
  obtain ⟨r1, r2, r3, r4⟩ := runOps_fields (mkEngine src_x src_y dst_x dst_y op lo
    hi name gf none none fxs fys xofs yofs) ops
  have hrow := get_line_row_const _ c row hg
    (by rw [r3, m3, r4, m4]; exact hclamp) hget
  rw [r2, m2] at hrow
  exact hrow

/-- Witness for C6: the 1-by-1 box engine fed the constant row `[7]` returns the
constant row. -/
theorem constant_image_preserved_witness :
    0 < 1
    ∧ (runOps engBox11 [Op.put [(7 : ℚ)] true]).status = .okay
    ∧ (get_line (runOps engBox11 [Op.put [(7 : ℚ)] true])).2 = some [(7 : ℚ)]
    ∧ [(7 : ℚ)] = List.replicate 1 (7 : ℚ) :=
  ⟨by decide, by decide, by decide,
   constant_image_preserved 1 1 1 1 .clamp 0 0 (some "box") ratFilters 1 1 0 0 7
     [Op.put [(7 : ℚ)] true] (runOps engBox11 [Op.put [(7 : ℚ)] true]) [(7 : ℚ)]
     (by decide) (by decide) rfl
     (by
       intro o ho r k hop
       rw [List.mem_singleton] at ho
       subst ho
       injection hop with h1 h2
       rw [← h1]
       rfl)
     (fun h => absurd h (lt_irrefl 0))
     (by decide) (by decide)⟩

end Resampler
